import Mathlib

/-!
# Verification of the note-taking core (storage.ts / storage.js)

Shallow embedding of the repository's note query/transform engine and its
localStorage-backed repository, together with proofs of the specified
properties.

Conventions of the embedding:
* JS strings are modelled as Lean `String` (lists of Unicode scalar values);
  `trim` strips the full ECMAScript whitespace set, and
  `toLowerCase`/`toUpperCase` are modelled by the Unicode Default Case
  Conversion (a character maps to a *string*, e.g. `ß` uppercases to `SS`),
  given here by the complete conversion tables for every code point below
  U+0100 (plus `İ` and `Ÿ`); code points outside that range are left
  unchanged, and the theorems that depend on case conversion restrict their
  strings to the faithfully modelled fragment.
* JS numbers are IEEE-754 binary64 values; the one arithmetic expression in
  the core, `Math.round((completed / total) * 100)`, is modelled by an exact
  integer-arithmetic emulation of binary64 round-to-nearest-even (`flPair`)
  so that every concrete value can be computed inside the kernel.
* `localStorage` is modelled as an explicit `Store` state (the value stored
  under the single key `notes.v1` plus fault flags saying whether each
  primitive throws), and the repository functions thread it explicitly.
  `try`/`catch` becomes an explicit `match` on an `Except` result.
* `JSON.stringify`/`JSON.parse` are modelled by a concrete serializer and a
  fuel-based recursive-descent JSON parser over a `Json` value type.
-/

/-! ## JS string primitives -/

/-- Whitespace recognised by JS `String.prototype.trim`: the full ECMAScript
`WhiteSpace` / `LineTerminator` set — TAB, LF, VT, FF, CR, SPACE, NBSP,
OGHAM SPACE MARK, EN QUAD through HAIR SPACE (U+2000 to U+200A), LINE and
PARAGRAPH SEPARATOR, NARROW NBSP, MEDIUM MATHEMATICAL SPACE, IDEOGRAPHIC
SPACE, and ZWNBSP. -/
def jsWhitespace (c : Char) : Bool :=
  decide (c.toNat ∈ [0x09, 0x0A, 0x0B, 0x0C, 0x0D, 0x20, 0xA0, 0x1680,
    0x2028, 0x2029, 0x202F, 0x205F, 0x3000, 0xFEFF]) ||
  decide (0x2000 ≤ c.toNat ∧ c.toNat ≤ 0x200A)

/-- `trim` on the character list: drop leading and trailing whitespace. -/
def trimList (cs : List Char) : List Char :=
  ((cs.dropWhile jsWhitespace).reverse.dropWhile jsWhitespace).reverse

/-- Model of JS `String.prototype.trim`. -/
def jsTrim (s : String) : String :=
  ⟨trimList s.data⟩

/-- One character of JS `String.prototype.toLowerCase`, the Unicode Default
Case Conversion (a character converts to a *string*).  The table is the
complete conversion for every code point below U+0100, for `İ` (U+0130, the
one unconditional one-to-many lowercase mapping, to `i` followed by
COMBINING DOT ABOVE) and for `Ÿ` (U+0178); every other code point is
returned unchanged, and the theorems that depend on case conversion
restrict their strings accordingly. -/
def lowerCharF (c : Char) : List Char :=
  if 65 ≤ c.toNat ∧ c.toNat ≤ 90 then [Char.ofNat (c.toNat + 32)]
  else if 192 ≤ c.toNat ∧ c.toNat ≤ 222 ∧ c.toNat ≠ 215 then
    [Char.ofNat (c.toNat + 32)]
  else if c.toNat = 304 then [Char.ofNat 105, Char.ofNat 775]
  else if c.toNat = 376 then [Char.ofNat 255]
  else [c]

/-- One character of JS `String.prototype.toUpperCase`, the Unicode Default
Case Conversion.  The table is the complete conversion for every code point
below U+0100 — including the one-to-many `ß` (U+00DF) to `SS` and the
cross-block `µ` (U+00B5) to GREEK CAPITAL MU (U+039C) and `ÿ` (U+00FF) to
`Ÿ` (U+0178); every other code point is returned unchanged. -/
def upperCharF (c : Char) : List Char :=
  if 97 ≤ c.toNat ∧ c.toNat ≤ 122 then [Char.ofNat (c.toNat - 32)]
  else if c.toNat = 181 then [Char.ofNat 924]
  else if c.toNat = 223 then [Char.ofNat 83, Char.ofNat 83]
  else if 224 ≤ c.toNat ∧ c.toNat ≤ 254 ∧ c.toNat ≠ 247 then
    [Char.ofNat (c.toNat - 32)]
  else if c.toNat = 255 then [Char.ofNat 376]
  else [c]

/-- Model of JS `String.prototype.toLowerCase`. -/
def jsToLower (s : String) : String :=
  ⟨(s.data.map lowerCharF).flatten⟩

/-- Model of JS `String.prototype.toUpperCase`. -/
def jsToUpper (s : String) : String :=
  ⟨(s.data.map upperCharF).flatten⟩

/-- Does the list `p` occur at the head of `s`? -/
def leadsWith : List Char → List Char → Bool
  | [], _ => true
  | _ :: _, [] => false
  | p :: ps, c :: cs => p = c && leadsWith ps cs

/-- Does `needle` occur contiguously inside `hay`?  Model of JS
`String.prototype.includes`. -/
def occursIn (hay needle : List Char) : Bool :=
  match hay with
  | [] => leadsWith needle []
  | _ :: rest => leadsWith needle hay || occursIn rest needle

/-- Model of `a.includes(b)` on strings. -/
def jsIncludes (a b : String) : Bool :=
  occursIn a.data b.data

/-! ## The Note entity and the environment of `createNote` -/

/-- The `Note` record of `storage.ts`. -/
structure Note where
  id : String
  text : String
  done : Bool
  createdAt : String
deriving Repr, DecidableEq

/-- The ambient environment consumed by `createNote`: the value that
`crypto.randomUUID()` returns and the value that
`new Date().toISOString()` returns at the moment of the call. -/
structure Env where
  uuid : String
  nowIso : String
deriving Repr, DecidableEq

/-- `createNote` from `storage.ts`: trims the text, takes a fresh id from the
UUID generator and the current instant from the clock. -/
def createNote (text : String) (env : Env) : Note :=
  { id := env.uuid
    text := jsTrim text
    done := false
    createdAt := env.nowIso }

/-- `toggleNote` from `storage.ts`: spread copy with `done` negated. -/
def toggleNote (note : Note) : Note :=
  { note with done := !note.done }

/-- `searchNotes` from `storage.ts`:
if the query trims to empty (falsy) return the input; otherwise filter by
case-insensitive substring containment of the lower-cased, trimmed query. -/
def searchNotes (notes : List Note) (query : String) : List Note :=
  if jsTrim query = "" then notes
  else
    let searchTerm := jsTrim (jsToLower query)
    notes.filter fun note => jsIncludes (jsToLower note.text) searchTerm

/-- `filterNotesByStatus` from `storage.ts` (the `switch` is translated to an
if-chain; `all` and the `default` branch both return the input). -/
def filterNotesByStatus (notes : List Note) (filter : String) : List Note :=
  if filter = "open" then notes.filter fun note => !note.done
  else if filter = "done" then notes.filter fun note => note.done
  else notes

/-! ## Timestamps: model of `new Date(s).getTime()` on ISO-8601 UTC strings

`createNote` stamps notes with `new Date().toISOString()`, i.e. strings of
the exact shape `YYYY-MM-DDTHH:MM:SS.mmmZ`.  The sort comparators read the
instant back with `new Date(s).getTime()`.  We model that reader on exactly
this shape: a well-formed string maps to its milliseconds since the Unix
epoch, anything else to `none` (the model of `NaN`). -/

/-- Numeric value of a decimal digit character, if it is one. -/
def digitVal (c : Char) : Option ℕ :=
  if 48 ≤ c.toNat ∧ c.toNat ≤ 57 then some (c.toNat - 48) else none

/-- Gregorian leap-year rule. -/
def isLeapYear (y : ℕ) : Bool :=
  (y % 4 = 0 && y % 100 ≠ 0) || y % 400 = 0

/-- Number of days in month `m` (1-based) of year `y`. -/
def daysInMonth (y m : ℕ) : ℕ :=
  if m = 2 then (if isLeapYear y then 29 else 28)
  else if m = 4 ∨ m = 6 ∨ m = 9 ∨ m = 11 then 30
  else 31

/-- Days from the civil epoch 1970-01-01 to year `y`, month `m`, day `d`
(the standard days-from-civil computation, restricted to the years
0000–9999 that `toISOString` produces). -/
def daysFromCivil (y m d : ℕ) : Int :=
  let y' : Int := if m ≤ 2 then (y : Int) - 1 else (y : Int)
  let era : Int := (if 0 ≤ y' then y' else y' - 399) / 400
  let yoe : Int := y' - era * 400
  let mp : Int := ((m : Int) + 9) % 12
  let doy : Int := (153 * mp + 2) / 5 + (d : Int) - 1
  let doe : Int := yoe * 365 + yoe / 4 - yoe / 100 + doy
  era * 146097 + doe - 719468

/-- Two decimal digits as a number. -/
def num2 (a b : Char) : Option ℕ :=
  match digitVal a, digitVal b with
  | some x, some y => some (x * 10 + y)
  | _, _ => none

/-- Three decimal digits as a number. -/
def num3 (a b c : Char) : Option ℕ :=
  match digitVal a, digitVal b, digitVal c with
  | some x, some y, some z => some (x * 100 + y * 10 + z)
  | _, _, _ => none

/-- Four decimal digits as a number. -/
def num4 (a b c d : Char) : Option ℕ :=
  match digitVal a, digitVal b, digitVal c, digitVal d with
  | some x, some y, some z, some w => some (x * 1000 + y * 100 + z * 10 + w)
  | _, _, _, _ => none

/-- Combine the parsed date/time fields, validating each range, into
milliseconds since the epoch. -/
def isoFields (y mo d h mi se ms : Option ℕ) : Option Int :=
  match y, mo, d, h, mi, se, ms with
  | some y, some mo, some d, some h, some mi, some se, some ms =>
    if 1 ≤ mo ∧ mo ≤ 12 ∧ 1 ≤ d ∧ d ≤ daysInMonth y mo ∧
       h ≤ 23 ∧ mi ≤ 59 ∧ se ≤ 59 then
      some ((((daysFromCivil y mo d * 24 + h) * 60 + mi) * 60 + se) * 1000 + ms)
    else none
  | _, _, _, _, _, _, _ => none

/-- Parse `YYYY-MM-DDTHH:MM:SS.mmmZ` to milliseconds since the epoch;
`none` models the `NaN` that `new Date(s).getTime()` yields on anything
malformed or out of range. -/
def parseIsoMs (s : String) : Option Int :=
  match s.data with
  | [y1, y2, y3, y4, '-', m1, m2, '-', d1, d2, 'T',
     h1, h2, ':', n1, n2, ':', s1, s2, '.', f1, f2, f3, 'Z'] =>
    isoFields (num4 y1 y2 y3 y4) (num2 m1 m2) (num2 d1 d2)
      (num2 h1 h2) (num2 n1 n2) (num2 s1 s2) (num3 f1 f2 f3)
  | _ => none

/-- `new Date(s).getTime()`: `none` models `NaN`. -/
def jsTime (s : String) : Option Int := parseIsoMs s

/-- The value of the comparator expression
`new Date(b).getTime() - new Date(a).getTime()`: if either side is `NaN`
the difference is `NaN`, which `Array.prototype.sort` treats like a zero
comparator result. -/
def timeDiff (b a : Option Int) : Int :=
  match b, a with
  | some x, some y => x - y
  | _, _ => 0

/-! ## Sorting -/

/-- The `date` comparator of `sortNotes`: newest first. -/
def dateCmp (a b : Note) : Int :=
  timeDiff (jsTime b.createdAt) (jsTime a.createdAt)

/-- The `status` comparator of `sortNotes`: same status falls back to the
date comparator, otherwise pending (`done = false`) first. -/
def statusCmp (a b : Note) : Int :=
  if a.done = b.done then dateCmp a b
  else if a.done then 1 else -1

/-- Model of `a.text.localeCompare(b.text)`: a three-way comparison on the
text.  Collation is modelled by code-point order; every claim below is
independent of the particular (consistent) collation order. -/
def alphaCmp (a b : Note) : Int :=
  if a.text < b.text then -1 else if b.text < a.text then 1 else 0

/-- `[...notes].sort(cmp)`: a stable sort of a copy of the input, sorted
according to the comparator (ES2019 requires `Array.prototype.sort` to be
stable; for a consistent comparator the result is the unique stable,
comparator-sorted permutation, which `List.mergeSort` computes). -/
def sortByCmp (cmp : Note → Note → Int) (notes : List Note) : List Note :=
  notes.mergeSort fun a b => cmp a b ≤ 0

/-- `sortNotes` from `storage.ts` (the `switch` is translated to an
if-chain; `case 'date'` and `default` share one branch in the source). -/
def sortNotes (notes : List Note) (sortBy : String) : List Note :=
  if sortBy = "alphabetical" then sortByCmp alphaCmp notes
  else if sortBy = "status" then sortByCmp statusCmp notes
  else sortByCmp dateCmp notes

/-! ## Statistics: an exact model of `Math.round((completed / total) * 100)`

JS numbers are IEEE-754 binary64.  The expression performs two rounded
binary64 operations (the division `completed / total` and the product
`… * 100`) followed by `Math.round` (nearest integer, ties toward `+∞`).
We emulate this exactly with integer arithmetic: a binary64 value is a pair
`(m, e)` denoting `m * 2 ^ (e - 52)` with `m` the 53-bit rounded mantissa of
a positive rational `a / b` and `e` its binary exponent.  (All quantities
here are in the normal range of binary64, so neither subnormals nor
overflow arise.) -/

/-- `⌊log₂ n⌋` for `1 ≤ n`, fuel-based so that the kernel can evaluate it. -/
def natLog2F : ℕ → ℕ → ℕ
  | 0, _ => 0
  | f + 1, n => if 2 ≤ n then natLog2F f (n / 2) + 1 else 0

/-- `⌊log₂ n⌋` for `1 ≤ n`. -/
def natLog2 (n : ℕ) : ℕ := natLog2F n n

/-- Least `s` with `b ≤ a * 2 ^ s` (for `1 ≤ a`, adequate fuel). -/
def upSteps : ℕ → ℕ → ℕ → ℕ
  | 0, _, _ => 0
  | f + 1, a, b => if b ≤ a then 0 else upSteps f (2 * a) b + 1

/-- `⌊log₂ (a / b)⌋` for `1 ≤ a`, `1 ≤ b`. -/
def qLog2 (a b : ℕ) : ℤ :=
  if b ≤ a then natLog2 (a / b) else -(upSteps b a b : ℤ)

/-- Round the rational `A / B` (with `1 ≤ B`) to the nearest integer,
ties to even — the binary64 mantissa rounding. -/
def rneInt (A B : ℕ) : ℕ :=
  let d := A / B
  let r := A % B
  if 2 * r < B then d
  else if B < 2 * r then d + 1
  else if d % 2 = 0 then d else d + 1

/-- Round the positive rational `a / b` to binary64: mantissa and exponent.
The value denoted is `(flPair a b).1 * 2 ^ ((flPair a b).2 - 52)`. -/
def flPair (a b : ℕ) : ℕ × ℤ :=
  let e := qLog2 a b
  let m :=
    if e ≤ 52 then rneInt (a * 2 ^ (52 - e).toNat) b
    else rneInt a (b * 2 ^ (e - 52).toNat)
  (m, e)

/-- `Math.round` (nearest integer, ties toward `+∞`) of the nonnegative
binary64 value `m * 2 ^ (e - 52)`. -/
def jsRoundD (m : ℕ) (e : ℤ) : ℕ :=
  if 52 ≤ e then m * 2 ^ (e - 52).toNat
  else (m + 2 ^ ((52 - e).toNat - 1)) / 2 ^ (52 - e).toNat

/-- The binary64 evaluation of `Math.round((completed / total) * 100)` for
`0 < total`: round the division, multiply the result by 100 and round
again, then apply `Math.round`. -/
def completionRateAux (completed total : ℕ) : ℕ :=
  let p1 := flPair completed total
  let p2 :=
    if p1.2 ≤ 52 then flPair (100 * p1.1) (2 ^ (52 - p1.2).toNat)
    else flPair (100 * p1.1 * 2 ^ (p1.2 - 52).toNat) 1
  jsRoundD p2.1 p2.2

/-- The record returned by `calculateStats`. -/
structure Stats where
  total : ℕ
  completed : ℕ
  pending : ℕ
  completionRate : ℕ
deriving Repr, DecidableEq

/-- `calculateStats` from `storage.ts`. -/
def calculateStats (notes : List Note) : Stats :=
  let total := notes.length
  let completed := (notes.filter fun note => note.done).length
  let pending := total - completed
  { total := total
    completed := completed
    pending := pending
    completionRate := if 0 < total then completionRateAux completed total else 0 }

/-! ## JSON

`save` writes `JSON.stringify(notes)` and `load` reads the raw string back
with `JSON.parse`, casting the result to `Note[]` **without validating it**.
We therefore model JS runtime values produced by `JSON.parse` as the type
`Json`, a serializer producing exactly the text `JSON.stringify` emits for a
note array, and a general recursive-descent JSON parser.  The parser uses
explicit fuel so that it is structurally recursive (and hence the kernel can
evaluate it); `2 * length + 2` units of fuel always suffice, since at least
one input character is consumed for every two recursive calls. -/

/-- JS values that `JSON.parse` can produce.  A numeric literal is kept as
its lexeme (notes contain no numbers, and no claim compares numeric
values). -/
inductive Json where
  | null
  | bool (b : Bool)
  | num (raw : String)
  | str (s : String)
  | arr (elems : List Json)
  | obj (members : List (String × Json))

/-- Hexadecimal digit character for `n < 16` (lowercase, as `JSON.stringify`
emits). -/
def hexDigit (n : ℕ) : Char :=
  if n < 10 then Char.ofNat (48 + n) else Char.ofNat (87 + n)

/-- The escaping `JSON.stringify` applies to one character of a string:
quote, backslash and the named control characters get two-character escapes,
the remaining control characters a `\u00XX` escape, everything else is
emitted unchanged. -/
def escapeChar (c : Char) : List Char :=
  if c = '"' then ['\\', '"']
  else if c = '\\' then ['\\', '\\']
  else if c = '\x08' then ['\\', 'b']
  else if c = '\x0c' then ['\\', 'f']
  else if c = '\n' then ['\\', 'n']
  else if c = '\r' then ['\\', 'r']
  else if c = '\t' then ['\\', 't']
  else if c.toNat < 32 then
    ['\\', 'u', '0', '0', hexDigit (c.toNat / 16), hexDigit (c.toNat % 16)]
  else [c]

/-- A JSON string literal: quote, escaped characters, quote. -/
def quoteChars (cs : List Char) : List Char :=
  '"' :: (cs.map escapeChar).flatten ++ ['"']

/-- `true` / `false` as written by `JSON.stringify`. -/
def boolChars (b : Bool) : List Char :=
  if b then ['t', 'r', 'u', 'e'] else ['f', 'a', 'l', 's', 'e']

/-- The text `JSON.stringify` produces for one note object: the four fields
in the insertion order of the object literal in `createNote`, no spaces. -/
def serializeNote (n : Note) : List Char :=
  '{' :: (quoteChars ['i', 'd'] ++ ':' :: quoteChars n.id.data) ++
  ',' :: (quoteChars ['t', 'e', 'x', 't'] ++ ':' :: quoteChars n.text.data) ++
  ',' :: (quoteChars ['d', 'o', 'n', 'e'] ++ ':' :: boolChars n.done) ++
  ',' :: (quoteChars ['c', 'r', 'e', 'a', 't', 'e', 'd', 'A', 't'] ++
          ':' :: quoteChars n.createdAt.data) ++ ['}']

/-- Comma-separated serialized notes. -/
def serializeNotesList : List Note → List Char
  | [] => []
  | [n] => serializeNote n
  | n :: ns => serializeNote n ++ ',' :: serializeNotesList ns

/-- `JSON.stringify(notes)`. -/
def stringifyNotes (ns : List Note) : String :=
  ⟨'[' :: serializeNotesList ns ++ [']']⟩

/-- The `Json` value a note array serializes to (and that `JSON.parse` hands
back to the caller of `load`). -/
def encodeNote (n : Note) : Json :=
  .obj [("id", .str n.id), ("text", .str n.text),
        ("done", .bool n.done), ("createdAt", .str n.createdAt)]

/-- JSON insignificant whitespace. -/
def isJsonWs (c : Char) : Bool :=
  c = ' ' || c = '\t' || c = '\n' || c = '\r'

/-- Drop leading JSON whitespace. -/
def skipWs (cs : List Char) : List Char :=
  cs.dropWhile isJsonWs

/-- Value of a hexadecimal digit character. -/
def hexVal (c : Char) : Option ℕ :=
  if 48 ≤ c.toNat ∧ c.toNat ≤ 57 then some (c.toNat - 48)
  else if 97 ≤ c.toNat ∧ c.toNat ≤ 102 then some (c.toNat - 87)
  else if 65 ≤ c.toNat ∧ c.toNat ≤ 70 then some (c.toNat - 55)
  else none

/-- Prepend a character to the string part of a string-parser result. -/
def pcons (c : Char) (r : Option (List Char × List Char)) :
    Option (List Char × List Char) :=
  Option.map (fun p => (c :: p.1, p.2)) r

/-- Decode a one-character escape (the character after the backslash,
`\\u` aside). -/
def escChar1 (e : Char) : Option Char :=
  if e = '"' then some '"'
  else if e = '\\' then some '\\'
  else if e = '/' then some '/'
  else if e = 'b' then some '\x08'
  else if e = 'f' then some '\x0c'
  else if e = 'n' then some '\n'
  else if e = 'r' then some '\r'
  else if e = 't' then some '\t'
  else none

/-- Four hexadecimal digits. -/
def hex4 (a b c d : Char) : Option ℕ :=
  match hexVal a, hexVal b, hexVal c, hexVal d with
  | some ha, some hb, some hc, some hd =>
    some (((ha * 16 + hb) * 16 + hc) * 16 + hd)
  | _, _, _, _ => none

/-- Parse the remainder of a JSON string literal (the opening quote already
consumed): the decoded characters and the input after the closing quote.
Unescaped control characters are rejected, as JSON requires.  A `\uXXXX`
escape denoting a surrogate half is rejected: JS strings are UTF-16 and a
lone surrogate has no counterpart among Unicode scalar values, and
`JSON.stringify` of a note array never emits surrogate escapes. -/
def parseStringRest : List Char → Option (List Char × List Char)
  | [] => none
  | c :: rest =>
    if c = '"' then some ([], rest)
    else if c = '\\' then
      match rest with
      | [] => none
      | e :: r =>
        if e = 'u' then
          match r with
          | a :: b :: c2 :: d :: r2 =>
            (match hex4 a b c2 d with
             | some n =>
               if n < 55296 then pcons (Char.ofNat n) (parseStringRest r2)
               else none
             | none => none)
          | _ => none
        else
          match escChar1 e with
          | some d => pcons d (parseStringRest r)
          | none => none
    else if c.toNat < 32 then none
    else pcons c (parseStringRest rest)

/-- Longest run of decimal digits. -/
def takeDigits : List Char → List Char × List Char
  | [] => ([], [])
  | c :: r =>
    if c.isDigit then
      let p := takeDigits r
      (c :: p.1, p.2)
    else ([], c :: r)

/-- The integer part of a JSON number: `0`, or a nonzero digit followed by
digits (JSON forbids redundant leading zeros). -/
def parseIntPart : List Char → Option (List Char × List Char)
  | '0' :: r => some (['0'], r)
  | c :: r =>
    if c.isDigit then
      let p := takeDigits r
      some (c :: p.1, p.2)
    else none
  | [] => none

/-- Optional fractional part `.digits`. -/
def parseFracPart : List Char → Option (List Char × List Char)
  | '.' :: r =>
    let p := takeDigits r
    if p.1 = [] then none else some ('.' :: p.1, p.2)
  | cs => some ([], cs)

/-- Optional exponent part `e[+-]?digits` / `E[+-]?digits`. -/
def parseExpPart : List Char → Option (List Char × List Char)
  | c :: s :: r =>
    if c = 'e' ∨ c = 'E' then
      if s = '+' ∨ s = '-' then
        let p := takeDigits r
        if p.1 = [] then none else some (c :: s :: p.1, p.2)
      else
        let p := takeDigits (s :: r)
        if p.1 = [] then none else some (c :: p.1, p.2)
    else some ([], c :: s :: r)
  | [c] =>
    if c = 'e' ∨ c = 'E' then none else some ([], [c])
  | [] => some ([], [])

/-- A JSON number literal at the head of the input: its lexeme and the rest. -/
def parseNumberRest (cs : List Char) : Option (List Char × List Char) :=
  let (sign, cs1) :=
    match cs with
    | '-' :: r => (['-'], r)
    | _ => (([] : List Char), cs)
  match parseIntPart cs1 with
  | none => none
  | some (ip, cs2) =>
    match parseFracPart cs2 with
    | none => none
    | some (fp, cs3) =>
      match parseExpPart cs3 with
      | none => none
      | some (ep, cs4) => some (sign ++ ip ++ fp ++ ep, cs4)

/-- The recursive part of the JSON parser, structurally recursive on fuel.
The second argument selects the production: `0` parses one value, `1` parses
the elements of a non-empty array up to and including `]` (returning
`Json.arr`), `2` parses the members of a non-empty object up to and
including `}` (returning `Json.obj`). -/
def parseJ : ℕ → ℕ → List Char → Option (Json × List Char)
  | 0, _, _ => none
  | f + 1, 0, cs =>
    match cs with
    | [] => none
    | c :: r =>
      if c = 't' then
        match r with
        | c1 :: c2 :: c3 :: r2 =>
          if c1 = 'r' ∧ c2 = 'u' ∧ c3 = 'e' then some (.bool true, r2) else none
        | _ => none
      else if c = 'f' then
        match r with
        | c1 :: c2 :: c3 :: c4 :: r2 =>
          if c1 = 'a' ∧ c2 = 'l' ∧ c3 = 's' ∧ c4 = 'e' then
            some (.bool false, r2)
          else none
        | _ => none
      else if c = 'n' then
        match r with
        | c1 :: c2 :: c3 :: r2 =>
          if c1 = 'u' ∧ c2 = 'l' ∧ c3 = 'l' then some (.null, r2) else none
        | _ => none
      else if c = '"' then
        Option.map (fun p => (Json.str ⟨p.1⟩, p.2)) (parseStringRest r)
      else if c = '[' then
        match skipWs r with
        | [] => none
        | d :: r2 => if d = ']' then some (.arr [], r2) else parseJ f 1 (d :: r2)
      else if c = '{' then
        match skipWs r with
        | [] => none
        | d :: r2 => if d = '}' then some (.obj [], r2) else parseJ f 2 (d :: r2)
      else Option.map (fun p => (Json.num ⟨p.1⟩, p.2)) (parseNumberRest cs)
  | f + 1, 1, cs =>
    match parseJ f 0 (skipWs cs) with
    | none => none
    | some (j, r) =>
      match skipWs r with
      | [] => none
      | d :: r2 =>
        if d = ',' then
          match parseJ f 1 r2 with
          | some (Json.arr js, r3) => some (Json.arr (j :: js), r3)
          | _ => none
        else if d = ']' then some (Json.arr [j], r2)
        else none
  | f + 1, 2, cs =>
    match skipWs cs with
    | [] => none
    | c :: r =>
      if c = '"' then
        match parseStringRest r with
        | none => none
        | some (k, r1) =>
          match skipWs r1 with
          | [] => none
          | d :: r2 =>
            if d = ':' then
              match parseJ f 0 (skipWs r2) with
              | none => none
              | some (v, r3) =>
                match skipWs r3 with
                | [] => none
                | d2 :: r4 =>
                  if d2 = ',' then
                    match parseJ f 2 r4 with
                    | some (Json.obj ms, r5) =>
                      some (Json.obj ((⟨k⟩, v) :: ms), r5)
                    | _ => none
                  else if d2 = '}' then some (Json.obj [(⟨k⟩, v)], r4)
                  else none
            else none
      else none
  | _ + 1, _ + 3, _ => none

/-- Model of `JSON.parse`: parse one value surrounded by optional
whitespace; `none` models the thrown `SyntaxError`. -/
def jsonParse (s : String) : Option Json :=
  match parseJ (2 * s.length + 2) 0 (skipWs s.data) with
  | some (j, rest) => if skipWs rest = [] then some j else none
  | none => none

/-! ## The Note Repository over `localStorage`

`localStorage` holds at most one value under the fixed key `notes.v1`; the
`Store` state records that value together with fault flags saying whether
each primitive throws on its next use (quota exceeded, disabled storage…).
Each primitive returns `Except`, and the `try`/`catch` of the repository
functions becomes an explicit `match`. -/

/-- Log severity: `console.warn` vs `console.error`. -/
inductive Severity where
  | warn
  | error
deriving Repr, DecidableEq

/-- One console log entry. -/
structure LogEntry where
  sev : Severity
  msg : String
deriving Repr, DecidableEq

/-- The state of `localStorage` restricted to the key `notes.v1`, plus
fault flags for the three primitives. -/
structure Store where
  data : Option String
  getThrows : Bool
  setThrows : Bool
  removeThrows : Bool
deriving Repr, DecidableEq

/-- `localStorage.getItem('notes.v1')`: `null` is modelled as `none`. -/
def getItem (st : Store) : Except String (Option String) :=
  if st.getThrows then .error "storage access error" else .ok st.data

/-- `localStorage.setItem('notes.v1', v)`. -/
def setItem (st : Store) (v : String) : Except String Store :=
  if st.setThrows then .error "storage write error"
  else .ok { st with data := some v }

/-- `localStorage.removeItem('notes.v1')`. -/
def removeItem (st : Store) : Except String Store :=
  if st.removeThrows then .error "storage delete error"
  else .ok { st with data := none }

/-- `loadNotes` from `storage.ts`.  The source returns
`JSON.parse(stored) as Note[]`; the `as` cast does nothing at runtime, so
the returned JS value is whatever `JSON.parse` produced, and the result type
of the model is accordingly `Json`.  `if (!stored) return []` takes both the
`null` of a missing key and the empty string, since both are falsy.  Either
a throwing `getItem` or a `JSON.parse` syntax error lands in the `catch`,
which warns and returns `[]`. -/
def loadNotes (st : Store) : Json × List LogEntry :=
  match getItem st with
  | .error _ =>
    (Json.arr [], [⟨.warn, "Failed to load notes from localStorage:"⟩])
  | .ok none => (Json.arr [], [])
  | .ok (some stored) =>
    if stored = "" then (Json.arr [], [])
    else
      match jsonParse stored with
      | none =>
        (Json.arr [], [⟨.warn, "Failed to load notes from localStorage:"⟩])
      | some j => (j, [])

/-- `saveNotes` from `storage.ts`: serialize and write; a throwing `setItem`
is caught and logged as an error, leaving the store unchanged. -/
def saveNotes (notes : List Note) (st : Store) : Store × List LogEntry :=
  match setItem st (stringifyNotes notes) with
  | .error _ =>
    (st, [⟨.error, "Failed to save notes to localStorage:"⟩])
  | .ok st2 => (st2, [])

/-- `clearNotes` from `storage.ts`: remove the key; a throwing `removeItem`
is caught and logged as an error, leaving the store unchanged. -/
def clearNotes (st : Store) : Store × List LogEntry :=
  match removeItem st with
  | .error _ =>
    (st, [⟨.error, "Failed to clear notes from localStorage:"⟩])
  | .ok st2 => (st2, [])

/-! ## Decoding note arrays from JSON values

The source never validates what `JSON.parse` returns; this decoder captures
the spec's notion of "a valid sequence of Notes" (an array of objects with
exactly the four note fields of the persisted layout), and expresses what
"deep-equal to the saved collection" means for the value `load` returns. -/

/-- Decode one note object. -/
def decodeNote : Json → Option Note
  | .obj [("id", .str i), ("text", .str t),
          ("done", .bool d), ("createdAt", .str c)] => some ⟨i, t, d, c⟩
  | _ => none

/-- Decode a list of note objects. -/
def decodeNotesList : List Json → Option (List Note)
  | [] => some []
  | j :: js =>
    match decodeNote j, decodeNotesList js with
    | some n, some ns => some (n :: ns)
    | _, _ => none

/-- Decode a JSON value as a sequence of Notes. -/
def decodeNotes : Json → Option (List Note)
  | .arr js => decodeNotesList js
  | _ => none

/-! ## Claim-side definitions -/

/-- The literal reading of the load contract of the spec, at one store
state: if no data exists, or the persisted payload cannot be parsed as a
valid sequence of Notes, or the store throws on read, then `load()` returns
the empty sequence. -/
def loadClaimAt (st : Store) : Prop :=
  (st.data = none ∨ st.getThrows = true ∨
    (∀ s, st.data = some s → ((jsonParse s).bind decodeNotes) = none)) →
  (loadNotes st).1 = Json.arr []

/-- Round half up to the nearest integer, on the exact rational value — the
rounding the spec ascribes to `completionRate`. -/
def roundHalfUp (v : ℚ) : ℤ := ⌊v + 1 / 2⌋

/-- A timestamp value with `NaN` defaulted, for stating order properties. -/
def timeValD (o : Option Int) : Int := o.getD 0

/-- A total preorder agreeing with the `status` comparator on notes with
well-formed timestamps: pending before done, then time descending.  (The raw
comparator is not transitive in the presence of `NaN` timestamps, so the
sortedness argument goes through this relation.) -/
def statusLeTotal (a b : Note) : Bool :=
  (!a.done && b.done) ||
  (a.done == b.done &&
    timeValD (jsTime b.createdAt) ≤ timeValD (jsTime a.createdAt))

/-- A concrete batch of notes for exercising `calculateStats`: `k` completed
notes followed by `m` pending ones. -/
def mixedNotes (k m : ℕ) : List Note :=
  List.replicate k
      { id := "d", text := "done item", done := true,
        createdAt := "2023-01-01T10:00:00.000Z" } ++
    List.replicate m
      { id := "p", text := "pending item", done := false,
        createdAt := "2023-01-01T11:00:00.000Z" }

/-! ## Helper lemmas: characters -/

theorem charExtNat {c d : Char} (h : c.toNat = d.toNat) : c = d :=
  Char.ext (UInt32.ext h)

theorem charToNat_ofNat (n : ℕ) (h : n < 55296) : (Char.ofNat n).toNat = n := by
  have hv : n.isValidChar := Or.inl h
  simp only [Char.ofNat, hv, dif_pos]
  rfl

theorem jsWhitespace_iff (c : Char) : jsWhitespace c = true ↔
    c.toNat ∈ [0x09, 0x0A, 0x0B, 0x0C, 0x0D, 0x20, 0xA0, 0x1680,
      0x2028, 0x2029, 0x202F, 0x205F, 0x3000, 0xFEFF] ∨
    (0x2000 ≤ c.toNat ∧ c.toNat ≤ 0x200A) := by
  simp [jsWhitespace]

theorem jsWhitespace_eq_false {c : Char} (h1 : 33 ≤ c.toNat)
    (h2 : c.toNat ≤ 5759) (h3 : c.toNat ≠ 160) : jsWhitespace c = false := by
  rcases hb : jsWhitespace c with _ | _
  · rfl
  · have hm := (jsWhitespace_iff c).mp hb
    simp only [List.mem_cons, List.not_mem_nil, or_false] at hm
    omega

/-- Lower-casing fixes whitespace characters (no whitespace character is
cased). -/
theorem lowerCharF_of_ws {c : Char} (h : jsWhitespace c = true) :
    lowerCharF c = [c] := by
  have hm := (jsWhitespace_iff c).mp h
  simp only [List.mem_cons, List.not_mem_nil, or_false] at hm
  unfold lowerCharF
  rw [if_neg (by omega), if_neg (by omega), if_neg (by omega),
    if_neg (by omega)]

/-- Lower-casing a non-whitespace character yields a nonempty string of
non-whitespace characters. -/
theorem lowerCharF_not_ws {c : Char} (h : jsWhitespace c = false) :
    lowerCharF c ≠ [] ∧ ∀ d ∈ lowerCharF c, jsWhitespace d = false := by
  unfold lowerCharF
  split_ifs with h1 h2 h3 h4
  · refine ⟨by simp, ?_⟩
    intro d hd
    simp only [List.mem_cons, List.not_mem_nil, or_false] at hd
    subst hd
    have hn : (Char.ofNat (c.toNat + 32)).toNat = c.toNat + 32 :=
      charToNat_ofNat _ (by omega)
    exact jsWhitespace_eq_false (by omega) (by omega) (by omega)
  · refine ⟨by simp, ?_⟩
    intro d hd
    simp only [List.mem_cons, List.not_mem_nil, or_false] at hd
    subst hd
    have hn : (Char.ofNat (c.toNat + 32)).toNat = c.toNat + 32 :=
      charToNat_ofNat _ (by omega)
    exact jsWhitespace_eq_false (by omega) (by omega) (by omega)
  · exact ⟨by simp, by decide⟩
  · exact ⟨by simp, by decide⟩
  · refine ⟨by simp, ?_⟩
    intro d hd
    simp only [List.mem_cons, List.not_mem_nil, or_false] at hd
    subst hd
    exact h

/-! ## C4, C7, C9, C10 -/

/-- C4: `toggleNote` returns a new Note whose `done` field is the negation
of the input's while `id`, `text` and `createdAt` are unchanged, and toggle
is an involution (so all fields are unchanged across two applications). -/
theorem toggleNote_spec (n : Note) :
    (toggleNote n).done = !n.done ∧
    (toggleNote n).id = n.id ∧
    (toggleNote n).text = n.text ∧
    (toggleNote n).createdAt = n.createdAt ∧
    toggleNote (toggleNote n) = n := by
  cases n
  simp [toggleNote]

/-- C7: any sorting criterion other than `alphabetical` and `status`
behaves exactly like `date`, and any filter other than `open` and `done`
behaves exactly like `all`, returning the input unchanged; both operations
are total, so neither can fail. -/
theorem fallback_defaults_spec :
    (∀ (ns : List Note) (c : String), c ≠ "alphabetical" → c ≠ "status" →
      sortNotes ns c = sortNotes ns "date") ∧
    (∀ (ns : List Note) (f : String), f ≠ "open" → f ≠ "done" →
      filterNotesByStatus ns f = ns ∧
      filterNotesByStatus ns f = filterNotesByStatus ns "all") := by
  constructor
  · intro ns c h1 h2
    simp [sortNotes, h1, h2]
  · intro ns f h1 h2
    simp [filterNotesByStatus, h1, h2]

theorem fallback_defaults_spec_witness :
    ("bogus" ≠ "alphabetical" ∧ "bogus" ≠ "status" ∧
      sortNotes [] "bogus" = sortNotes [] "date") ∧
    ("bogus" ≠ "open" ∧ "bogus" ≠ "done" ∧
      filterNotesByStatus [⟨"1", "a", false, "T"⟩] "bogus" =
        [⟨"1", "a", false, "T"⟩]) :=
  ⟨⟨by decide, by decide,
    fallback_defaults_spec.1 [] "bogus" (by decide) (by decide)⟩,
   ⟨by decide, by decide,
    (fallback_defaults_spec.2 [⟨"1", "a", false, "T"⟩] "bogus"
      (by decide) (by decide)).1⟩⟩

/-- C10: for every criterion whatsoever, `sortNotes` returns a permutation
of its input — same length, same notes, same multiplicities. -/
theorem sortNotes_perm (ns : List Note) (c : String) :
    (sortNotes ns c).Perm ns := by
  unfold sortNotes sortByCmp
  split_ifs <;> exact List.mergeSort_perm ns _

/-- C9 counterexample: `createNote` is not deterministic given its input:
with the same input text, two calls at different environment moments (a
different generated UUID) return different notes. -/
theorem createNote_env_dependent :
    createNote "a" ⟨"u1", "T"⟩ ≠ createNote "a" ⟨"u2", "T"⟩ := by
  decide

/-- C9, amended: `toggleNote`, `searchNotes`, `sortNotes`,
`filterNotesByStatus` and `calculateStats` are pure functions of their
inputs — equal inputs give equal results — and `createNote` is a pure
function of its input text *together with* the environment-supplied UUID
and current instant. -/
theorem queryEngine_deterministic :
    (∀ (t u : String) (e1 e2 : Env), t = u → e1 = e2 →
      createNote t e1 = createNote u e2) ∧
    (∀ n m : Note, n = m → toggleNote n = toggleNote m) ∧
    (∀ (ns ms : List Note) (q r : String), ns = ms → q = r →
      searchNotes ns q = searchNotes ms r) ∧
    (∀ (ns ms : List Note) (c d : String), ns = ms → c = d →
      sortNotes ns c = sortNotes ms d) ∧
    (∀ (ns ms : List Note) (f g : String), ns = ms → f = g →
      filterNotesByStatus ns f = filterNotesByStatus ms g) ∧
    (∀ ns ms : List Note, ns = ms → calculateStats ns = calculateStats ms) := by
  refine ⟨?_, ?_, ?_, ?_, ?_, ?_⟩ <;> intros <;> subst_vars <;> rfl

theorem queryEngine_deterministic_witness :
    createNote "x" ⟨"u", "T"⟩ = createNote "x" ⟨"u", "T"⟩ ∧
    toggleNote ⟨"1", "a", false, "T"⟩ = toggleNote ⟨"1", "a", false, "T"⟩ :=
  ⟨queryEngine_deterministic.1 "x" "x" ⟨"u", "T"⟩ ⟨"u", "T"⟩ rfl rfl,
   queryEngine_deterministic.2.1 _ _ rfl⟩

/-! ## Helper lemmas: substring search -/

theorem leadsWith_iff {p s : List Char} : leadsWith p s = true ↔ p <+: s := by
  induction p generalizing s with
  | nil => simp [leadsWith]
  | cons c cs ih =>
    cases s with
    | nil => simp [leadsWith]
    | cons d ds =>
      simp [leadsWith, List.cons_prefix_cons, ih]

theorem occursIn_iff {hay needle : List Char} :
    occursIn hay needle = true ↔ needle <:+: hay := by
  induction hay with
  | nil => simp [occursIn, leadsWith_iff]
  | cons c cs ih =>
    rw [List.infix_cons_iff]
    simp [occursIn, leadsWith_iff, ih]

theorem trimList_within (cs : List Char) : trimList cs <:+: cs := by
  have h1 : cs.dropWhile jsWhitespace <:+ cs := List.dropWhile_suffix _
  have h2 : (cs.dropWhile jsWhitespace).reverse.dropWhile jsWhitespace <:+
      (cs.dropWhile jsWhitespace).reverse := List.dropWhile_suffix _
  have h3 : trimList cs <+: cs.dropWhile jsWhitespace := by
    rw [← List.reverse_suffix]
    simpa [trimList] using h2
  exact h3.isInfix.trans h1.isInfix

/-- Flattened per-character maps preserve contiguous substrings. -/
theorem flatten_map_within (f : Char → List Char) {s t : List Char}
    (h : s <:+: t) : (s.map f).flatten <:+: (t.map f).flatten := by
  obtain ⟨a, b, rfl⟩ := h
  exact ⟨(a.map f).flatten, (b.map f).flatten, by
    simp [List.map_append, List.flatten_append]⟩

theorem reverse_flatten_map (f : Char → List Char) (l : List Char) :
    ((l.map f).flatten).reverse =
      (l.reverse.map fun c => (f c).reverse).flatten := by
  induction l with
  | nil => simp
  | cons c l ih =>
    simp [List.map_append, List.flatten_append, ih]

/-- Dropping leading whitespace commutes with a per-character map that
fixes whitespace and keeps non-whitespace non-white. -/
theorem dropWhile_flatten_map (f : Char → List Char)
    (hws : ∀ c, jsWhitespace c = true → f c = [c])
    (hnw : ∀ c, jsWhitespace c = false →
      f c ≠ [] ∧ ∀ d ∈ f c, jsWhitespace d = false)
    (l : List Char) :
    ((l.map f).flatten).dropWhile jsWhitespace =
      ((l.dropWhile jsWhitespace).map f).flatten := by
  induction l with
  | nil => simp
  | cons c l ih =>
    rcases hc : jsWhitespace c with _ | _
    · obtain ⟨hne, hall⟩ := hnw c hc
      rcases hfc : f c with _ | ⟨d, ds⟩
      · exact absurd hfc hne
      · have hd : jsWhitespace d = false :=
          hall d (by rw [hfc]; exact List.mem_cons_self _ _)
        simp [hfc, List.dropWhile_cons, hc, hd]
    · rw [List.map_cons, List.flatten_cons, hws c hc]
      simp [List.dropWhile_cons, hc, ih]

/-- Trimming commutes with such a per-character map. -/
theorem trimList_flatten_map (f : Char → List Char)
    (hws : ∀ c, jsWhitespace c = true → f c = [c])
    (hnw : ∀ c, jsWhitespace c = false →
      f c ≠ [] ∧ ∀ d ∈ f c, jsWhitespace d = false)
    (l : List Char) :
    trimList ((l.map f).flatten) = ((trimList l).map f).flatten := by
  have hws2 : ∀ c, jsWhitespace c = true → (f c).reverse = [c] := by
    intro c hc
    rw [hws c hc]
    simp
  have hnw2 : ∀ c, jsWhitespace c = false →
      (f c).reverse ≠ [] ∧ ∀ d ∈ (f c).reverse, jsWhitespace d = false := by
    intro c hc
    obtain ⟨hne, hall⟩ := hnw c hc
    exact ⟨by simpa using hne, fun d hd => hall d (by simpa using hd)⟩
  unfold trimList
  rw [dropWhile_flatten_map f hws hnw, reverse_flatten_map,
    dropWhile_flatten_map (fun c => (f c).reverse) hws2 hnw2,
    reverse_flatten_map]
  simp only [List.reverse_reverse]

theorem jsTrim_jsToLower (s : String) :
    jsTrim (jsToLower s) = jsToLower (jsTrim s) := by
  show String.mk (trimList ((s.data.map lowerCharF).flatten)) =
    String.mk (((trimList s.data).map lowerCharF).flatten)
  exact congrArg String.mk (trimList_flatten_map lowerCharF
    (fun c hc => lowerCharF_of_ws hc) (fun c hc => lowerCharF_not_ws hc)
    s.data)

/-- Composing flattened per-character maps into one per-character table. -/
theorem flatten_map_flatten (f g : Char → List Char) (l : List Char) :
    (((l.map g).flatten).map f).flatten =
      (l.map fun c => ((g c).map f).flatten).flatten := by
  induction l with
  | nil => simp
  | cons c l ih =>
    simp only [List.map_cons, List.flatten_cons, List.map_append,
      List.flatten_append, ih]

/-- On an ASCII character, upper-casing then lower-casing is the same as
lower-casing. -/
theorem lowerUpper_ascii {c : Char} (h : c.toNat ≤ 127) :
    ((upperCharF c).map lowerCharF).flatten = lowerCharF c := by
  unfold upperCharF
  split_ifs with h1 h2 h3 h4 h5
  · have hn : (Char.ofNat (c.toNat - 32)).toNat = c.toNat - 32 :=
      charToNat_ofNat _ (by omega)
    have hstep : lowerCharF (Char.ofNat (c.toNat - 32)) = [c] := by
      unfold lowerCharF
      rw [hn, if_pos (by omega)]
      have he : c.toNat - 32 + 32 = c.toNat := by omega
      rw [he]
      refine congrArg (fun x => [x]) (charExtNat ?_)
      rw [charToNat_ofNat _ (by omega)]
    have hc : lowerCharF c = [c] := by
      unfold lowerCharF
      rw [if_neg (by omega), if_neg (by omega), if_neg (by omega),
        if_neg (by omega)]
    simp [hstep, hc]
  · exact absurd h2 (by omega)
  · exact absurd h3 (by omega)
  · exact absurd h4 (by omega)
  · exact absurd h5 (by omega)
  · simp

/-- On ASCII strings, lower-casing after upper-casing is lower-casing. -/
theorem jsToLower_jsToUpper_ascii {s : String}
    (h : ∀ c ∈ s.data, c.toNat ≤ 127) :
    jsToLower (jsToUpper s) = jsToLower s := by
  show String.mk ((((s.data.map upperCharF).flatten).map lowerCharF).flatten) =
    String.mk ((s.data.map lowerCharF).flatten)
  refine congrArg String.mk ?_
  rw [flatten_map_flatten]
  exact congrArg List.flatten
    (List.map_congr_left fun c hc => lowerUpper_ascii (h c hc))

/-- A trimmed, lower-cased substring of the text occurs in the lower-cased
text. -/
theorem searchTerm_in (n : Note) (s : String) (h : s.data <:+: n.text.data) :
    jsIncludes (jsToLower n.text) (jsTrim (jsToLower s)) = true := by
  unfold jsIncludes
  rw [occursIn_iff]
  show trimList ((s.data.map lowerCharF).flatten) <:+:
    (n.text.data.map lowerCharF).flatten
  exact (trimList_within _).trans (flatten_map_within lowerCharF h)

/-! ## C3 -/

/-- C3: a query that trims to empty returns the input unchanged; otherwise
`searchNotes` returns exactly the notes whose text contains the trimmed
query case-insensitively, preserving order (it is a `filter` of the input);
and for a note whose text is ASCII, for any substring `s` of the text,
searching a singleton list for `s` or for `s.toUpperCase()` finds the note.
(The ASCII restriction on the substring property is forced: the Unicode
Default Case Conversion is not one-to-one per character — `ß` uppercases to
`SS` — so outside ASCII the uppercased query can miss the note; see the
counterexample.) -/
theorem searchNotes_spec :
    (∀ (ns : List Note) (q : String), jsTrim q = "" → searchNotes ns q = ns) ∧
    (∀ (ns : List Note) (q : String), jsTrim q ≠ "" →
      searchNotes ns q = ns.filter fun n =>
        jsIncludes (jsToLower n.text) (jsToLower (jsTrim q))) ∧
    (∀ (n : Note) (s : String), (∀ c ∈ n.text.data, c.toNat ≤ 127) →
      s.data <:+: n.text.data →
      n ∈ searchNotes [n] s ∧ n ∈ searchNotes [n] (jsToUpper s)) := by
  refine ⟨?_, ?_, ?_⟩
  · intro ns q h
    simp [searchNotes, h]
  · intro ns q h
    simp [searchNotes, h, jsTrim_jsToLower]
  · intro n s hascii h
    have hs : ∀ c ∈ s.data, c.toNat ≤ 127 := fun c hc =>
      hascii c (h.subset hc)
    constructor
    · by_cases hq : jsTrim s = ""
      · simp [searchNotes, hq]
      · simp [searchNotes, hq, List.mem_filter, searchTerm_in n s h]
    · by_cases hq : jsTrim (jsToUpper s) = ""
      · simp [searchNotes, hq]
      · have hlow : jsTrim (jsToLower (jsToUpper s)) =
            jsTrim (jsToLower s) := by
          rw [jsToLower_jsToUpper_ascii hs]
        simp [searchNotes, hq, hlow, List.mem_filter, searchTerm_in n s h]

theorem searchNotes_spec_witness :
    (jsTrim "   " = "" ∧
      searchNotes [⟨"1", "Buy milk", false, "T"⟩] "   " =
        [⟨"1", "Buy milk", false, "T"⟩]) ∧
    (jsTrim "BUY" ≠ "" ∧
      searchNotes [⟨"1", "Buy milk", false, "T"⟩, ⟨"2", "Walk dog", true, "T"⟩]
        "BUY" = [⟨"1", "Buy milk", false, "T"⟩]) ∧
    ((∀ c ∈ ("Buy milk" : String).data, c.toNat ≤ 127) ∧
      "uy m".data <:+: ("Buy milk" : String).data ∧
      ⟨"1", "Buy milk", false, "T"⟩ ∈
        searchNotes [⟨"1", "Buy milk", false, "T"⟩] "uy m" ∧
      ⟨"1", "Buy milk", false, "T"⟩ ∈
        searchNotes [⟨"1", "Buy milk", false, "T"⟩] (jsToUpper "uy m")) :=
  ⟨⟨by decide, searchNotes_spec.1 _ "   " (by decide)⟩,
   ⟨by decide,
    (searchNotes_spec.2.1 _ "BUY" (by decide)).trans (by decide)⟩,
   ⟨by decide, by decide,
    (searchNotes_spec.2.2 ⟨"1", "Buy milk", false, "T"⟩ "uy m" (by decide)
      (by decide)).1,
    (searchNotes_spec.2.2 ⟨"1", "Buy milk", false, "T"⟩ "uy m" (by decide)
      (by decide)).2⟩⟩

/-- Counterexample bounding C3's substring property to ASCII texts: the
Unicode Default Case Conversion sends `ß` to `SS`, and a search for the
uppercased text then misses the note — on the single note with text `ß`,
the query `toUpperCase` of `ß`, namely `SS`, returns the empty list even
though `ß` is trivially a substring of itself. -/
theorem searchNotes_unicode_counterexample :
    jsToUpper "ß" = "SS" ∧
    ("ß" : String).data <:+: ("ß" : String).data ∧
    searchNotes [⟨"1", "ß", false, "T"⟩] (jsToUpper "ß") = [] := by
  refine ⟨by decide, List.infix_rfl, by decide⟩

/-! ## C5: sorting by status -/

theorem statusLeTotal_trans (a b c : Note) (h1 : statusLeTotal a b)
    (h2 : statusLeTotal b c) : statusLeTotal a c := by
  unfold statusLeTotal at h1 h2 ⊢
  cases ha : a.done <;> cases hb : b.done <;> cases hc : c.done <;>
    simp_all <;> omega

theorem statusLeTotal_total (a b : Note) :
    statusLeTotal a b || statusLeTotal b a := by
  unfold statusLeTotal
  cases ha : a.done <;> cases hb : b.done <;> simp <;> omega

/-- On notes with well-formed timestamps the source comparator and the total
preorder agree. -/
theorem statusCmp_agree {a b : Note} (ha : (jsTime a.createdAt).isSome = true)
    (hb : (jsTime b.createdAt).isSome = true) :
    decide (statusCmp a b ≤ 0) = statusLeTotal a b := by
  obtain ⟨ta, hta⟩ := Option.isSome_iff_exists.mp ha
  obtain ⟨tb, htb⟩ := Option.isSome_iff_exists.mp hb
  unfold statusCmp statusLeTotal dateCmp timeDiff timeValD
  rw [hta, htb]
  by_cases hd : a.done = b.done
  · rw [if_pos hd, hd]
    cases b.done <;> simp
  · rw [if_neg hd]
    cases hda : a.done <;> cases hdb : b.done <;> simp_all

/-- C5: when every note carries a well-formed timestamp, sorting by
`status` returns a permutation of the input in which every pending note
precedes every done note, and within one status group the creation times
are descending (most recent first). -/
theorem sortNotes_status_spec (ns : List Note)
    (h : ∀ n ∈ ns, (jsTime n.createdAt).isSome = true) :
    (sortNotes ns "status").Perm ns ∧
    (sortNotes ns "status").Pairwise (fun a b =>
      (a.done = false ∧ b.done = true) ∨
      (a.done = b.done ∧
        timeValD (jsTime b.createdAt) ≤ timeValD (jsTime a.createdAt))) := by
  have hform : sortNotes ns "status" = sortByCmp statusCmp ns := by
    simp [sortNotes]
  have hl : ∀ a ∈ ns, ∀ b ∈ ns,
      (fun a b => decide (statusCmp a b ≤ 0)) a b =
        statusLeTotal (id a) (id b) := by
    intro a hha b hhb
    exact statusCmp_agree (h a hha) (h b hhb)
  have hcong : sortByCmp statusCmp ns = ns.mergeSort statusLeTotal := by
    have hm := List.map_mergeSort (f := id) hl
    simpa [sortByCmp] using hm
  constructor
  · rw [hform]
    exact List.mergeSort_perm ns _
  · rw [hform, hcong]
    refine List.Pairwise.imp ?_
      (List.sorted_mergeSort statusLeTotal_trans statusLeTotal_total ns)
    intro a b hab
    unfold statusLeTotal at hab
    rcases Bool.or_eq_true .. |>.mp hab with h1 | h2
    · left
      rcases Bool.and_eq_true .. |>.mp h1 with ⟨h3, h4⟩
      exact ⟨by simpa using h3, h4⟩
    · right
      rcases Bool.and_eq_true .. |>.mp h2 with ⟨h3, h4⟩
      exact ⟨by simpa using h3, by simpa using h4⟩

theorem sortNotes_status_spec_witness :
    (∀ n ∈ [(⟨"1", "a", false, "2023-01-01T10:00:00.000Z"⟩ : Note),
            ⟨"2", "b", true, "2023-01-01T11:00:00.000Z"⟩,
            ⟨"3", "c", false, "2023-01-03T12:00:00.000Z"⟩],
      (jsTime n.createdAt).isSome = true) ∧
    ((sortNotes [(⟨"1", "a", false, "2023-01-01T10:00:00.000Z"⟩ : Note),
            ⟨"2", "b", true, "2023-01-01T11:00:00.000Z"⟩,
            ⟨"3", "c", false, "2023-01-03T12:00:00.000Z"⟩] "status").Perm
        [(⟨"1", "a", false, "2023-01-01T10:00:00.000Z"⟩ : Note),
            ⟨"2", "b", true, "2023-01-01T11:00:00.000Z"⟩,
            ⟨"3", "c", false, "2023-01-03T12:00:00.000Z"⟩] ∧
      (sortNotes [(⟨"1", "a", false, "2023-01-01T10:00:00.000Z"⟩ : Note),
            ⟨"2", "b", true, "2023-01-01T11:00:00.000Z"⟩,
            ⟨"3", "c", false, "2023-01-03T12:00:00.000Z"⟩] "status").Pairwise
        (fun a b =>
          (a.done = false ∧ b.done = true) ∨
          (a.done = b.done ∧
            timeValD (jsTime b.createdAt) ≤ timeValD (jsTime a.createdAt)))) :=
  ⟨by decide,
   sortNotes_status_spec
     [⟨"1", "a", false, "2023-01-01T10:00:00.000Z"⟩,
      ⟨"2", "b", true, "2023-01-01T11:00:00.000Z"⟩,
      ⟨"3", "c", false, "2023-01-03T12:00:00.000Z"⟩] (by decide)⟩

/-! ## C8: save and clear never raise -/

/-- C8: `saveNotes` and `clearNotes` are total — the `try`/`catch` is
explicit in their definitions, so no exception crosses the boundary.  When
the store rejects the write or delete, the state is left unchanged (the
operation degrades to a no-op) and a single error-severity entry is logged;
every entry these operations ever log has error severity, which is distinct
from the warning severity `load` uses. -/
theorem saveClear_noThrow_spec (st : Store) (ns : List Note) :
    (st.setThrows = true →
      saveNotes ns st =
        (st, [⟨.error, "Failed to save notes to localStorage:"⟩])) ∧
    (st.setThrows = false →
      saveNotes ns st = ({ st with data := some (stringifyNotes ns) }, [])) ∧
    (st.removeThrows = true →
      clearNotes st =
        (st, [⟨.error, "Failed to clear notes from localStorage:"⟩])) ∧
    (st.removeThrows = false →
      clearNotes st = ({ st with data := none }, [])) ∧
    (∀ e ∈ (saveNotes ns st).2, e.sev = .error) ∧
    (∀ e ∈ (clearNotes st).2, e.sev = .error) ∧
    Severity.error ≠ Severity.warn := by
  unfold saveNotes clearNotes setItem removeItem
  cases hset : st.setThrows <;> cases hrem : st.removeThrows <;>
    simp_all

theorem saveClear_noThrow_spec_witness :
    ((⟨none, false, true, true⟩ : Store).setThrows = true ∧
      saveNotes [] ⟨none, false, true, true⟩ =
        (⟨none, false, true, true⟩,
         [⟨.error, "Failed to save notes to localStorage:"⟩]) ∧
      clearNotes ⟨none, false, true, true⟩ =
        (⟨none, false, true, true⟩,
         [⟨.error, "Failed to clear notes from localStorage:"⟩])) ∧
    saveNotes [] ⟨none, false, false, false⟩ =
      (⟨some (stringifyNotes []), false, false, false⟩, []) :=
  ⟨⟨rfl,
    (saveClear_noThrow_spec ⟨none, false, true, true⟩ []).1 rfl,
    (saveClear_noThrow_spec ⟨none, false, true, true⟩ []).2.2.1 rfl⟩,
   (saveClear_noThrow_spec ⟨none, false, false, false⟩ []).2.1 rfl⟩

/-! ## C1: the load contract -/

/-- C1 counterexample: with the valid-JSON payload `true` persisted (which
certainly "cannot be parsed as a valid sequence of Notes"), `load` does not
return the empty sequence — it returns the parsed value `true` unvalidated,
because the source casts the `JSON.parse` result without checking it. -/
theorem loadNotes_unvalidated_payload :
    ¬ loadClaimAt ⟨some "true", false, false, false⟩ := by
  intro hcl
  have h1 : (loadNotes ⟨some "true", false, false, false⟩).1 =
      Json.bool true := rfl
  have h2 := hcl (Or.inr (Or.inr (by intro s hs; cases hs; rfl)))
  exact Json.noConfusion (h1.symm.trans h2)

/-- C1, amended: `load` is total (never raises) and behaves as follows: a
throwing store read yields `[]` with a warning; a missing key or empty
string yields `[]` silently; a stored payload on which `JSON.parse` throws
yields `[]` with a warning — in particular the literal text `invalid json`
is rejected by the parser; but a payload that parses as JSON is returned
as-is, unvalidated (it need not be a sequence of Notes).  Every entry
`load` logs has warning severity. -/
theorem loadNotes_branches (st : Store) :
    (st.getThrows = true →
      loadNotes st =
        (Json.arr [], [⟨.warn, "Failed to load notes from localStorage:"⟩])) ∧
    (st.getThrows = false → st.data = none ∨ st.data = some "" →
      loadNotes st = (Json.arr [], [])) ∧
    (∀ s, st.getThrows = false → st.data = some s → s ≠ "" →
      (jsonParse s = none →
        loadNotes st =
          (Json.arr [],
           [⟨.warn, "Failed to load notes from localStorage:"⟩])) ∧
      (∀ j, jsonParse s = some j → loadNotes st = (j, []))) ∧
    (∀ e ∈ (loadNotes st).2, e.sev = .warn) ∧
    jsonParse "invalid json" = none := by
  refine ⟨?_, ?_, ?_, ?_, rfl⟩
  · intro hg
    simp [loadNotes, getItem, hg]
  · intro hg hd
    rcases hd with hd | hd <;> simp [loadNotes, getItem, hg, hd]
  · intro s hg hd hne
    constructor
    · intro hp
      simp [loadNotes, getItem, hg, hd, hne, hp]
    · intro j hp
      simp [loadNotes, getItem, hg, hd, hne, hp]
  · cases hg : st.getThrows
    · cases hd : st.data with
      | none => simp [loadNotes, getItem, hg, hd]
      | some s =>
        by_cases hne : s = ""
        · simp [loadNotes, getItem, hg, hd, hne]
        · cases hp : jsonParse s <;>
            simp [loadNotes, getItem, hg, hd, hne, hp]
    · simp [loadNotes, getItem, hg]

theorem loadNotes_branches_witness :
    ((⟨none, true, false, false⟩ : Store).getThrows = true ∧
      loadNotes ⟨none, true, false, false⟩ =
        (Json.arr [], [⟨.warn, "Failed to load notes from localStorage:"⟩])) ∧
    loadNotes ⟨none, false, false, false⟩ = (Json.arr [], []) ∧
    (jsonParse "invalid json" = none ∧
      loadNotes ⟨some "invalid json", false, false, false⟩ =
        (Json.arr [], [⟨.warn, "Failed to load notes from localStorage:"⟩])) :=
  ⟨⟨rfl, (loadNotes_branches ⟨none, true, false, false⟩).1 rfl⟩,
   (loadNotes_branches ⟨none, false, false, false⟩).2.1 rfl (Or.inl rfl),
   ⟨rfl,
    ((loadNotes_branches ⟨some "invalid json", false, false, false⟩).2.2.1
      "invalid json" rfl rfl (by decide)).1 rfl⟩⟩


/-! ## C6: serializer/parser round trip -/

theorem skipWs_cons {c : Char} (h : isJsonWs c = false) (l : List Char) :
    skipWs (c :: l) = c :: l := by
  simp [skipWs, List.dropWhile, h]

theorem escapeChar_ord {c : Char} (h1 : c ≠ '"') (h2 : c ≠ '\\')
    (h3 : ¬ c.toNat < 32) : escapeChar c = [c] := by
  have hb : c ≠ '\x08' := fun hx => by subst hx; exact h3 (by decide)
  have hf : c ≠ '\x0c' := fun hx => by subst hx; exact h3 (by decide)
  have hn : c ≠ '\n' := fun hx => by subst hx; exact h3 (by decide)
  have hr : c ≠ '\r' := fun hx => by subst hx; exact h3 (by decide)
  have ht : c ≠ '\t' := fun hx => by subst hx; exact h3 (by decide)
  simp [escapeChar, h1, h2, h3, hb, hf, hn, hr, ht]

theorem parseStringRest_ord {c : Char} (h1 : c ≠ '"') (h2 : c ≠ '\\')
    (h3 : ¬ c.toNat < 32) (tail : List Char) :
    parseStringRest (c :: tail) = pcons c (parseStringRest tail) := by
  conv_lhs => unfold parseStringRest
  rw [if_neg h1, if_neg h2, if_neg h3]

theorem hexVal_hexDigit {v : ℕ} (h : v < 16) : hexVal (hexDigit v) = some v := by
  unfold hexDigit hexVal
  by_cases h10 : v < 10
  · rw [if_pos h10, charToNat_ofNat _ (by omega), if_pos (by omega)]
    congr 1
    omega
  · rw [if_neg h10, charToNat_ofNat _ (by omega), if_neg (by omega),
      if_pos (by omega)]
    congr 1
    omega

theorem parseStringRest_quote (cs rest : List Char) :
    parseStringRest ((cs.map escapeChar).flatten ++ '"' :: rest) =
      some (cs, rest) := by
  induction cs with
  | nil =>
    show parseStringRest ('"' :: rest) = some ([], rest)
    conv_lhs => unfold parseStringRest
    simp
  | cons c cs ih =>
    have hshape : ((c :: cs).map escapeChar).flatten ++ '"' :: rest =
        escapeChar c ++ ((cs.map escapeChar).flatten ++ '"' :: rest) := by
      simp [List.append_assoc]
    rw [hshape]
    by_cases hq : c = '"'
    · subst hq
      rw [show escapeChar '"' = ['\\', '"'] from rfl]
      simp only [List.cons_append, List.nil_append]
      conv_lhs => unfold parseStringRest
      simp [escChar1, ih, pcons]
    · by_cases hb : c = '\\'
      · subst hb
        rw [show escapeChar '\\' = ['\\', '\\'] from rfl]
        simp only [List.cons_append, List.nil_append]
        conv_lhs => unfold parseStringRest
        simp [escChar1, ih, pcons]
      · by_cases h8 : c = '\x08'
        · subst h8
          rw [show escapeChar '\x08' = ['\\', 'b'] from rfl]
          simp only [List.cons_append, List.nil_append]
          conv_lhs => unfold parseStringRest
          simp [escChar1, ih, pcons]
        · by_cases hc : c = '\x0c'
          · subst hc
            rw [show escapeChar '\x0c' = ['\\', 'f'] from rfl]
            simp only [List.cons_append, List.nil_append]
            conv_lhs => unfold parseStringRest
            simp [escChar1, ih, pcons]
          · by_cases hn : c = '\n'
            · subst hn
              rw [show escapeChar '\n' = ['\\', 'n'] from rfl]
              simp only [List.cons_append, List.nil_append]
              conv_lhs => unfold parseStringRest
              simp [escChar1, ih, pcons]
            · by_cases hr : c = '\r'
              · subst hr
                rw [show escapeChar '\r' = ['\\', 'r'] from rfl]
                simp only [List.cons_append, List.nil_append]
                conv_lhs => unfold parseStringRest
                simp [escChar1, ih, pcons]
              · by_cases ht : c = '\t'
                · subst ht
                  rw [show escapeChar '\t' = ['\\', 't'] from rfl]
                  simp only [List.cons_append, List.nil_append]
                  conv_lhs => unfold parseStringRest
                  simp [escChar1, ih, pcons]
                · by_cases hctl : c.toNat < 32
                  · have hesc : escapeChar c =
                        ['\\', 'u', '0', '0', hexDigit (c.toNat / 16),
                         hexDigit (c.toNat % 16)] := by
                      simp [escapeChar, hq, hb, h8, hc, hn, hr, ht, hctl]
                    have hhex : hex4 '0' '0' (hexDigit (c.toNat / 16))
                        (hexDigit (c.toNat % 16)) = some c.toNat := by
                      unfold hex4
                      rw [show hexVal '0' = some 0 from rfl,
                        hexVal_hexDigit (by omega), hexVal_hexDigit (by omega)]
                      simp only []
                      congr 1
                      omega
                    rw [hesc]
                    simp only [List.cons_append, List.nil_append]
                    conv_lhs => unfold parseStringRest
                    simp [hhex, Char.ofNat_toNat, ih, pcons,
                      show c.toNat < 55296 from by omega]
                  · rw [escapeChar_ord hq hb hctl, List.singleton_append,
                      parseStringRest_ord hq hb hctl, ih]
                    rfl

theorem parseJ_string (f : ℕ) (cs rest : List Char) :
    parseJ (f + 1) 0 (quoteChars cs ++ rest) = some (Json.str ⟨cs⟩, rest) := by
  have hshape : quoteChars cs ++ rest =
      '"' :: ((cs.map escapeChar).flatten ++ '"' :: rest) := by
    simp [quoteChars]
  rw [hshape]
  conv_lhs => unfold parseJ
  simp [parseStringRest_quote]

theorem parseJ_bool (f : ℕ) (b : Bool) (rest : List Char) :
    parseJ (f + 1) 0 (boolChars b ++ rest) = some (Json.bool b, rest) := by
  cases b
  · show parseJ (f + 1) 0 ('f' :: 'a' :: 'l' :: 's' :: 'e' :: rest) = _
    conv_lhs => unfold parseJ
    simp
  · show parseJ (f + 1) 0 ('t' :: 'r' :: 'u' :: 'e' :: rest) = _
    conv_lhs => unfold parseJ
    simp

theorem skipWs_quote (cs X : List Char) :
    skipWs (quoteChars cs ++ X) = quoteChars cs ++ X := by
  have h : quoteChars cs ++ X =
      '"' :: ((cs.map escapeChar).flatten ++ '"' :: X) := by
    simp [quoteChars]
  rw [h, skipWs_cons (by decide)]

theorem skipWs_bool (b : Bool) (X : List Char) :
    skipWs (boolChars b ++ X) = boolChars b ++ X := by
  cases b
  · show skipWs ('f' :: _) = _
    rw [skipWs_cons (by decide)]
    rfl
  · show skipWs ('t' :: _) = _
    rw [skipWs_cons (by decide)]
    rfl

theorem parseJ_member_str (f : ℕ) (key v tail : List Char) :
    parseJ (f + 2) 2 (quoteChars key ++ ':' :: (quoteChars v ++ ',' :: tail)) =
      (match parseJ (f + 1) 2 tail with
       | some (Json.obj ms, r5) =>
         some (Json.obj ((⟨key⟩, Json.str ⟨v⟩) :: ms), r5)
       | _ => none) := by
  have hshape : quoteChars key ++ ':' :: (quoteChars v ++ ',' :: tail) =
      '"' :: ((key.map escapeChar).flatten ++
        '"' :: (':' :: (quoteChars v ++ ',' :: tail))) := by
    simp [quoteChars]
  rw [hshape]
  conv_lhs => unfold parseJ
  rw [skipWs_cons (by decide)]
  simp only [reduceIte, parseStringRest_quote]
  rw [skipWs_cons (by decide)]
  simp only [reduceIte, skipWs_quote, parseJ_string]
  rw [skipWs_cons (by decide)]
  simp only [reduceIte]

theorem parseJ_member_bool (f : ℕ) (key : List Char) (b : Bool)
    (tail : List Char) :
    parseJ (f + 2) 2 (quoteChars key ++ ':' :: (boolChars b ++ ',' :: tail)) =
      (match parseJ (f + 1) 2 tail with
       | some (Json.obj ms, r5) =>
         some (Json.obj ((⟨key⟩, Json.bool b) :: ms), r5)
       | _ => none) := by
  have hshape : quoteChars key ++ ':' :: (boolChars b ++ ',' :: tail) =
      '"' :: ((key.map escapeChar).flatten ++
        '"' :: (':' :: (boolChars b ++ ',' :: tail))) := by
    simp [quoteChars]
  rw [hshape]
  conv_lhs => unfold parseJ
  rw [skipWs_cons (by decide)]
  simp only [reduceIte, parseStringRest_quote]
  rw [skipWs_cons (by decide)]
  simp only [reduceIte, skipWs_bool, parseJ_bool]
  rw [skipWs_cons (by decide)]
  simp only [reduceIte]

theorem parseJ_member_str_last (f : ℕ) (key v tail : List Char) :
    parseJ (f + 2) 2 (quoteChars key ++ ':' :: (quoteChars v ++ '}' :: tail)) =
      some (Json.obj [(⟨key⟩, Json.str ⟨v⟩)], tail) := by
  have hshape : quoteChars key ++ ':' :: (quoteChars v ++ '}' :: tail) =
      '"' :: ((key.map escapeChar).flatten ++
        '"' :: (':' :: (quoteChars v ++ '}' :: tail))) := by
    simp [quoteChars]
  rw [hshape]
  conv_lhs => unfold parseJ
  rw [skipWs_cons (by decide)]
  simp only [reduceIte, parseStringRest_quote]
  rw [skipWs_cons (by decide)]
  simp only [reduceIte, skipWs_quote, parseJ_string]
  rw [skipWs_cons (by decide)]
  simp only [reduceIte]
  rw [if_neg (by decide)]

theorem parseJ_obj_start (f : ℕ) (k X : List Char) :
    parseJ (f + 1) 0 ('{' :: (quoteChars k ++ X)) =
      parseJ f 2 (quoteChars k ++ X) := by
  have hq : quoteChars k ++ X =
      '"' :: ((k.map escapeChar).flatten ++ '"' :: X) := by
    simp [quoteChars]
  conv_lhs => unfold parseJ
  rw [hq]
  simp [skipWs_cons (c := '"') (by decide)]

theorem parseJ_noteObj (f : ℕ) (n : Note) (rest : List Char) :
    parseJ (f + 6) 0 (serializeNote n ++ rest) = some (encodeNote n, rest) := by
  have hshape : serializeNote n ++ rest =
      '{' :: (quoteChars ['i', 'd'] ++ ':' :: (quoteChars n.id.data ++
        ',' :: (quoteChars ['t', 'e', 'x', 't'] ++
          ':' :: (quoteChars n.text.data ++
        ',' :: (quoteChars ['d', 'o', 'n', 'e'] ++ ':' :: (boolChars n.done ++
        ',' :: (quoteChars ['c', 'r', 'e', 'a', 't', 'e', 'd', 'A', 't'] ++
          ':' :: (quoteChars n.createdAt.data ++ '}' :: rest)))))))) := by
    simp [serializeNote, List.append_assoc]
  rw [hshape, parseJ_obj_start, parseJ_member_str, parseJ_member_str,
    parseJ_member_bool, parseJ_member_str_last]
  rfl

theorem serializeNote_shape (n : Note) (rest : List Char) :
    serializeNote n ++ rest =
      '{' :: (quoteChars ['i', 'd'] ++ ':' :: (quoteChars n.id.data ++
        ',' :: (quoteChars ['t', 'e', 'x', 't'] ++
          ':' :: (quoteChars n.text.data ++
        ',' :: (quoteChars ['d', 'o', 'n', 'e'] ++ ':' :: (boolChars n.done ++
        ',' :: (quoteChars ['c', 'r', 'e', 'a', 't', 'e', 'd', 'A', 't'] ++
          ':' :: (quoteChars n.createdAt.data ++ '}' :: rest)))))))) := by
  simp [serializeNote, List.append_assoc]

theorem skipWs_serializeNote (n : Note) (X : List Char) :
    skipWs (serializeNote n ++ X) = serializeNote n ++ X := by
  rw [serializeNote_shape, skipWs_cons (by decide)]

theorem parseJ_elems (ms : List Note) : ∀ (n : Note) (f : ℕ) (rest : List Char),
    parseJ (f + 7 + 7 * ms.length) 1
        (serializeNotesList (n :: ms) ++ ']' :: rest) =
      some (Json.arr ((n :: ms).map encodeNote), rest) := by
  induction ms with
  | nil =>
    intro n f rest
    show parseJ (f + 7) 1 (serializeNote n ++ ']' :: rest) = _
    conv_lhs => unfold parseJ
    rw [skipWs_serializeNote, parseJ_noteObj]
    simp [skipWs_cons (c := ']') (by decide)]
  | cons m ms ih =>
    intro n f rest
    have harith : f + 7 + 7 * (m :: ms).length = f + 13 + 7 * ms.length + 1 := by
      simp [List.length_cons]
      ring
    have hsl : serializeNotesList (n :: m :: ms) ++ ']' :: rest =
        serializeNote n ++
          (',' :: (serializeNotesList (m :: ms) ++ ']' :: rest)) := by
      show (serializeNote n ++ ',' :: serializeNotesList (m :: ms)) ++
          ']' :: rest = _
      simp [List.append_assoc]
    have hval : parseJ (f + 13 + 7 * ms.length) 0
        (skipWs (serializeNote n ++
          (',' :: (serializeNotesList (m :: ms) ++ ']' :: rest)))) =
        some (encodeNote n,
          ',' :: (serializeNotesList (m :: ms) ++ ']' :: rest)) := by
      rw [skipWs_serializeNote,
        show f + 13 + 7 * ms.length = f + 7 + 7 * ms.length + 6 from by ring]
      exact parseJ_noteObj _ n _
    have hrec : parseJ (f + 13 + 7 * ms.length) 1
        (serializeNotesList (m :: ms) ++ ']' :: rest) =
        some (Json.arr ((m :: ms).map encodeNote), rest) := by
      rw [show f + 13 + 7 * ms.length = (f + 6) + 7 + 7 * ms.length from
        by ring]
      exact ih m (f + 6) rest
    rw [harith, hsl]
    conv_lhs => unfold parseJ
    rw [hval]
    simp [hrec, skipWs_cons (c := ',') (by decide)]

theorem serializeNote_length (n : Note) : 46 ≤ (serializeNote n).length := by
  cases hb : n.done <;>
    simp [serializeNote, quoteChars, boolChars, escapeChar, hb] <;> omega

theorem serializeNotesList_length (ms : List Note) : ∀ n : Note,
    46 + 46 * ms.length ≤ (serializeNotesList (n :: ms)).length := by
  induction ms with
  | nil =>
    intro n
    simpa [serializeNotesList] using serializeNote_length n
  | cons m ms ih =>
    intro n
    show 46 + 46 * (ms.length + 1) ≤
      (serializeNote n ++ ',' :: serializeNotesList (m :: ms)).length
    have h1 := serializeNote_length n
    have h2 := ih m
    simp only [List.length_append, List.length_cons]
    omega

theorem serializeNotesList_start (n : Note) (ms : List Note) (Y : List Char) :
    ∃ T, serializeNotesList (n :: ms) ++ Y = '{' :: T := by
  cases ms with
  | nil => exact ⟨_, serializeNote_shape n Y⟩
  | cons m ms2 =>
    have h : serializeNotesList (n :: m :: ms2) ++ Y =
        serializeNote n ++ (',' :: serializeNotesList (m :: ms2) ++ Y) := by
      show (serializeNote n ++ ',' :: serializeNotesList (m :: ms2)) ++ Y = _
      rw [List.append_assoc]
    exact ⟨_, h.trans (serializeNote_shape n _)⟩

/-- `JSON.parse ∘ JSON.stringify` on a note array gives back exactly the
array of note objects. -/
theorem jsonParse_stringifyNotes (ns : List Note) :
    jsonParse (stringifyNotes ns) = some (Json.arr (ns.map encodeNote)) := by
  cases ns with
  | nil => rfl
  | cons n ms =>
    unfold jsonParse
    have hdata : (stringifyNotes (n :: ms)).data =
        '[' :: (serializeNotesList (n :: ms) ++ [']']) := rfl
    have hlen : (stringifyNotes (n :: ms)).length =
        (serializeNotesList (n :: ms)).length + 2 := by
      show ('[' :: (serializeNotesList (n :: ms) ++ [']'])).length = _
      simp
    rw [hdata, hlen, skipWs_cons (by decide)]
    rw [show 2 * ((serializeNotesList (n :: ms)).length + 2) + 2 =
      (2 * (serializeNotesList (n :: ms)).length + 5) + 1 from by ring]
    conv_lhs => unfold parseJ
    obtain ⟨T, hT⟩ := serializeNotesList_start n ms [']']
    rw [hT]
    have hlb := serializeNotesList_length ms n
    have hfuel : 2 * (serializeNotesList (n :: ms)).length + 5 =
        (2 * (serializeNotesList (n :: ms)).length - 7 * ms.length - 2) +
          7 + 7 * ms.length := by
      omega
    have helems : parseJ (2 * (serializeNotesList (n :: ms)).length + 5) 1
        ('{' :: T) =
        some (Json.arr ((n :: ms).map encodeNote), []) := by
      rw [← hT, hfuel]
      exact parseJ_elems ms n _ []
    simp only [skipWs_cons (c := '{') (by decide)]
    simp [helems, skipWs]

theorem decodeNote_encodeNote (n : Note) : decodeNote (encodeNote n) = some n :=
  rfl

theorem decodeNotesList_map (ns : List Note) :
    decodeNotesList (ns.map encodeNote) = some ns := by
  induction ns with
  | nil => rfl
  | cons n ms ih => simp [decodeNotesList, decodeNote_encodeNote, ih]

/-- C6: with a healthy store, `load()` immediately after `save(ns)` returns
(without logging anything) the JS value that is exactly the array of `ns`'s
note objects; that value is deep-equal to `ns` in the sense that decoding
it as a sequence of Notes gives back `ns` itself. -/
theorem save_load_roundtrip (ns : List Note) (st : Store)
    (hset : st.setThrows = false) (hget : st.getThrows = false) :
    (loadNotes (saveNotes ns st).1).1 = Json.arr (ns.map encodeNote) ∧
    decodeNotes (Json.arr (ns.map encodeNote)) = some ns ∧
    (loadNotes (saveNotes ns st).1).2 = [] := by
  have hsv : (saveNotes ns st).1 =
      { st with data := some (stringifyNotes ns) } := by
    simp [saveNotes, setItem, hset]
  have hne : stringifyNotes ns ≠ "" := by
    intro h
    have hd := congrArg String.data h
    simp [stringifyNotes] at hd
  rw [hsv]
  refine ⟨?_, ?_, ?_⟩
  · simp [loadNotes, getItem, hget, hne, jsonParse_stringifyNotes]
  · simp [decodeNotes, decodeNotesList_map]
  · simp [loadNotes, getItem, hget, hne, jsonParse_stringifyNotes]

theorem save_load_roundtrip_witness :
    ((⟨none, false, false, false⟩ : Store).setThrows = false ∧
     (⟨none, false, false, false⟩ : Store).getThrows = false) ∧
    (loadNotes (saveNotes
        [⟨"1", "Buy milk", false, "2023-01-01T10:00:00.000Z"⟩]
        ⟨none, false, false, false⟩).1).1 =
      Json.arr ([(⟨"1", "Buy milk", false,
        "2023-01-01T10:00:00.000Z"⟩ : Note)].map encodeNote) ∧
    decodeNotes (Json.arr ([(⟨"1", "Buy milk", false,
        "2023-01-01T10:00:00.000Z"⟩ : Note)].map encodeNote)) =
      some [⟨"1", "Buy milk", false, "2023-01-01T10:00:00.000Z"⟩] :=
  ⟨⟨rfl, rfl⟩,
   (save_load_roundtrip [⟨"1", "Buy milk", false,
      "2023-01-01T10:00:00.000Z"⟩] ⟨none, false, false, false⟩ rfl rfl).1,
   (save_load_roundtrip [⟨"1", "Buy milk", false,
      "2023-01-01T10:00:00.000Z"⟩] ⟨none, false, false, false⟩ rfl rfl).2.1⟩

/-! ## C2: the binary64 model of `completionRate`

`flPair a b` is by construction the correctly rounded (round-to-nearest,
ties-to-even) binary64 value of `a / b`: the lemmas below establish the
standard facts — the exponent satisfies `2 ^ e ≤ a / b < 2 ^ (e + 1)`, the
mantissa rounding moves the value by at most half a unit in the last place,
hence the relative error is at most `2⁻⁵³` — and from them the exact
characterization of `Math.round((completed / total) * 100)`. -/

theorem natLog2F_bounds : ∀ f n, 1 ≤ n → n ≤ f →
    2 ^ natLog2F f n ≤ n ∧ n < 2 ^ (natLog2F f n + 1) := by
  intro f
  induction f with
  | zero => intro n h1 h2; omega
  | succ f ih =>
    intro n h1 h2
    rw [natLog2F]
    by_cases h : 2 ≤ n
    · rw [if_pos h]
      have hn2 : 1 ≤ n / 2 := by omega
      have hle : n / 2 ≤ f := by omega
      obtain ⟨l1, l2⟩ := ih (n / 2) hn2 hle
      constructor
      · rw [pow_succ]
        have := Nat.mul_le_mul_right 2 l1
        omega
      · rw [pow_succ]
        have := Nat.mul_le_mul_right 2 l2
        omega
    · rw [if_neg h]
      constructor
      · simpa using h1
      · simpa using by omega

theorem upSteps_bounds : ∀ f a b, 1 ≤ a → b ≤ a * 2 ^ f →
    b ≤ a * 2 ^ upSteps f a b ∧
      (0 < upSteps f a b → a * 2 ^ (upSteps f a b - 1) < b) := by
  intro f
  induction f with
  | zero =>
    intro a b ha hb
    rw [upSteps]
    exact ⟨by simpa using hb, by omega⟩
  | succ f ih =>
    intro a b ha hb
    rw [upSteps]
    by_cases h : b ≤ a
    · rw [if_pos h]
      exact ⟨by simpa using h, by omega⟩
    · rw [if_neg h]
      have hb2 : b ≤ 2 * a * 2 ^ f := by
        calc b ≤ a * 2 ^ (f + 1) := hb
        _ = 2 * a * 2 ^ f := by ring
      obtain ⟨l1, l2⟩ := ih (2 * a) b (by omega) hb2
      constructor
      · calc b ≤ 2 * a * 2 ^ upSteps f (2 * a) b := l1
        _ = a * 2 ^ (upSteps f (2 * a) b + 1) := by ring
      · intro _
        rcases Nat.eq_zero_or_pos (upSteps f (2 * a) b) with h0 | hpos
        · rw [h0]
          simpa using by omega
        · have hl2 := l2 hpos
          have harr : a * 2 ^ (upSteps f (2 * a) b + 1 - 1) =
              2 * a * 2 ^ (upSteps f (2 * a) b - 1) := by
            rw [Nat.add_sub_cancel]
            rcases Nat.exists_eq_add_of_lt hpos with ⟨s, hs⟩
            rw [hs]
            simp [pow_succ]
            ring
          rw [harr]
          exact hl2

theorem natLog2_bounds {n : ℕ} (h : 1 ≤ n) :
    2 ^ natLog2 n ≤ n ∧ n < 2 ^ (natLog2 n + 1) :=
  natLog2F_bounds n n h le_rfl

theorem upSteps_pos {a b : ℕ} (hb : 1 ≤ b) (h : ¬ b ≤ a) :
    0 < upSteps b a b := by
  rcases Nat.exists_eq_add_of_le hb with ⟨f, hf⟩
  rw [show b = f + 1 from by omega, upSteps, if_neg (by omega)]
  omega

theorem qLog2_le {a b : ℕ} (ha : 1 ≤ a) (hb : 1 ≤ b) :
    (2 : ℚ) ^ qLog2 a b ≤ (a : ℚ) / b := by
  have hbq : (0 : ℚ) < b := by positivity
  unfold qLog2
  by_cases h : b ≤ a
  · rw [if_pos h]
    have h1 : 2 ^ natLog2 (a / b) ≤ a / b :=
      (natLog2_bounds ((Nat.one_le_div_iff (by omega)).mpr h)).1
    calc (2 : ℚ) ^ ((natLog2 (a / b) : ℕ) : ℤ) =
        ((2 ^ natLog2 (a / b) : ℕ) : ℚ) := by
          rw [zpow_natCast]
          push_cast
          ring
    _ ≤ ((a / b : ℕ) : ℚ) := by exact_mod_cast h1
    _ ≤ (a : ℚ) / b := Nat.cast_div_le
  · rw [if_neg h]
    have hfuel : b ≤ a * 2 ^ b := by
      have h1 : b < 2 ^ b := Nat.lt_two_pow b
      have h2 : 2 ^ b ≤ a * 2 ^ b := Nat.le_mul_of_pos_left _ (by omega)
      omega
    have hub := (upSteps_bounds b a b ha hfuel).1
    have hubq : (b : ℚ) ≤ (a : ℚ) * 2 ^ upSteps b a b := by
      exact_mod_cast hub
    rw [zpow_neg, zpow_natCast, inv_le_iff_one_le_mul₀ (by positivity),
      div_mul_eq_mul_div, le_div_iff₀ hbq, one_mul]
    linarith

theorem qLog2_lt {a b : ℕ} (ha : 1 ≤ a) (hb : 1 ≤ b) :
    (a : ℚ) / b < (2 : ℚ) ^ (qLog2 a b + 1) := by
  have hbq : (0 : ℚ) < b := by positivity
  unfold qLog2
  by_cases h : b ≤ a
  · rw [if_pos h]
    have h2 : a / b < 2 ^ (natLog2 (a / b) + 1) :=
      (natLog2_bounds ((Nat.one_le_div_iff (by omega)).mpr h)).2
    have h3 : a < 2 ^ (natLog2 (a / b) + 1) * b :=
      (Nat.div_lt_iff_lt_mul (by omega)).mp h2
    rw [div_lt_iff₀ hbq]
    calc (a : ℚ) < ((2 ^ (natLog2 (a / b) + 1) * b : ℕ) : ℚ) := by
          exact_mod_cast h3
    _ = (2 : ℚ) ^ (((natLog2 (a / b) : ℕ) : ℤ) + 1) * b := by
          push_cast
          rw [zpow_add₀ (by norm_num), zpow_natCast, zpow_one]
          ring
  · rw [if_neg h]
    have hspos : 0 < upSteps b a b := upSteps_pos hb h
    have hfuel : b ≤ a * 2 ^ b := by
      have h1 : b < 2 ^ b := Nat.lt_two_pow b
      have h2 : 2 ^ b ≤ a * 2 ^ b := Nat.le_mul_of_pos_left _ (by omega)
      omega
    have hup := (upSteps_bounds b a b ha hfuel).2 hspos
    have hnat : a * 2 ^ upSteps b a b < 2 * b := by
      rcases Nat.exists_eq_add_of_lt hspos with ⟨u, hu⟩
      have hs : upSteps b a b = u + 1 := by omega
      rw [hs] at hup ⊢
      rw [Nat.add_sub_cancel] at hup
      rw [pow_succ]
      nlinarith
    have hq : (a : ℚ) * 2 ^ upSteps b a b < 2 * b := by
      exact_mod_cast hnat
    have hxp : (2 : ℚ) ^ (-(upSteps b a b : ℤ) + 1) =
        2 / 2 ^ upSteps b a b := by
      rw [zpow_add₀ (by norm_num), zpow_neg, zpow_natCast, zpow_one]
      ring
    rw [div_lt_iff₀ hbq, hxp, div_mul_eq_mul_div,
      lt_div_iff₀ (by positivity : (0:ℚ) < 2 ^ upSteps b a b)]
    linarith

theorem rneInt_dist {A B : ℕ} (hb : 1 ≤ B) :
    |(rneInt A B : ℚ) - A / B| ≤ 1 / 2 := by
  have hbq : (0 : ℚ) < B := by positivity
  have hdm : B * (A / B) + A % B = A := Nat.div_add_mod A B
  have hmlt : A % B < B := Nat.mod_lt _ (by omega)
  have hAB : (A : ℚ) / B = (A / B : ℕ) + (A % B : ℕ) / B := by
    have hc := congrArg (fun n : ℕ => (n : ℚ)) hdm
    push_cast at hc
    field_simp
    linarith
  have hrB : ((A % B : ℕ) : ℚ) / B < 1 := by
    rw [div_lt_one hbq]
    exact_mod_cast hmlt
  have hr0 : (0 : ℚ) ≤ ((A % B : ℕ) : ℚ) / B := by positivity
  unfold rneInt
  dsimp only
  rw [hAB]
  split_ifs with h1 h2 h3
  · rw [show ((A / B : ℕ) : ℚ) - (((A / B : ℕ) : ℚ) + (A % B : ℕ) / B) =
      -(((A % B : ℕ) : ℚ) / B) from by ring, abs_neg, abs_of_nonneg hr0,
      div_le_div_iff₀ hbq (by norm_num)]
    have h1q : ((A % B : ℕ) : ℚ) * 2 ≤ B := by
      have : 2 * (A % B) ≤ B := by omega
      exact_mod_cast by linarith [this]
    linarith
  · rw [show (((A / B + 1 : ℕ) : ℚ)) - (((A / B : ℕ) : ℚ) + (A % B : ℕ) / B) =
      1 - ((A % B : ℕ) : ℚ) / B from by push_cast; ring,
      abs_of_nonneg (by linarith)]
    have h2q : (B : ℚ) ≤ ((A % B : ℕ) : ℚ) * 2 := by
      have hn : B ≤ 2 * (A % B) := by omega
      exact_mod_cast by linarith [hn]
    have hge : 1 / 2 ≤ ((A % B : ℕ) : ℚ) / B := by
      rw [le_div_iff₀ hbq]
      linarith
    linarith
  · rw [show ((A / B : ℕ) : ℚ) - (((A / B : ℕ) : ℚ) + (A % B : ℕ) / B) =
      -(((A % B : ℕ) : ℚ) / B) from by ring, abs_neg, abs_of_nonneg hr0,
      div_le_div_iff₀ hbq (by norm_num)]
    have heq : 2 * (A % B) = B := by omega
    have : ((A % B : ℕ) : ℚ) * 2 = B := by exact_mod_cast by linarith [heq]
    linarith
  · rw [show (((A / B + 1 : ℕ) : ℚ)) - (((A / B : ℕ) : ℚ) + (A % B : ℕ) / B) =
      1 - ((A % B : ℕ) : ℚ) / B from by push_cast; ring,
      abs_of_nonneg (by linarith)]
    have heq : 2 * (A % B) = B := by omega
    have hq : ((A % B : ℕ) : ℚ) * 2 = B := by exact_mod_cast by linarith [heq]
    have : ((A % B : ℕ) : ℚ) / B = 1 / 2 := by
      rw [div_eq_div_iff (ne_of_gt hbq) (by norm_num)]
      linarith
    rw [this]
    norm_num

theorem rneInt_scaled_err {A B : ℕ} {q : ℚ} {e : ℤ} (hb : 1 ≤ B)
    (hAB : (A : ℚ) / B = q * 2 ^ (52 - e)) (hle : (2 : ℚ) ^ e ≤ q) :
    |(rneInt A B : ℚ) * 2 ^ (e - 52) - q| ≤ q * ((2 : ℚ) ^ (53 : ℕ))⁻¹ ∧
      1 ≤ rneInt A B := by
  have hdist := rneInt_dist (A := A) hb
  have hqpos : 0 < q := lt_of_lt_of_le (by positivity) hle
  have hcancel : q * 2 ^ (52 - e) * 2 ^ (e - 52) = q := by
    rw [mul_assoc, ← zpow_add₀ (by norm_num : (2:ℚ) ≠ 0)]
    norm_num
  have hAB52 : (2 : ℚ) ^ (52 : ℤ) ≤ (A : ℚ) / B := by
    rw [hAB]
    calc (2 : ℚ) ^ (52 : ℤ) = 2 ^ e * 2 ^ (52 - e) := by
          rw [← zpow_add₀ (by norm_num : (2:ℚ) ≠ 0)]
          norm_num
    _ ≤ q * 2 ^ (52 - e) :=
        mul_le_mul_of_nonneg_right hle (by positivity)
  have hmge : (2 : ℚ) ^ (52 : ℤ) - 1 / 2 ≤ (rneInt A B : ℚ) := by
    have h := (abs_le.mp hdist).1
    linarith
  constructor
  · have hpow : (0 : ℚ) < (2 : ℚ) ^ (e - 52) := by positivity
    have h1 : |(rneInt A B : ℚ) - (A : ℚ) / B| * 2 ^ (e - 52) ≤
        1 / 2 * 2 ^ (e - 52) :=
      mul_le_mul_of_nonneg_right hdist (le_of_lt hpow)
    rw [← abs_of_nonneg (le_of_lt hpow), ← abs_mul] at h1
    rw [hAB, sub_mul, hcancel] at h1
    rw [abs_of_nonneg (le_of_lt hpow)] at h1
    refine le_trans h1 ?_
    have hstep : (1 : ℚ) / 2 * 2 ^ (e - 52) = 2 ^ e * ((2 : ℚ) ^ (53 : ℕ))⁻¹ := by
      have h53 : ((2 : ℚ) ^ (53 : ℕ))⁻¹ = (2 : ℚ) ^ (-(53 : ℤ)) := by
        rw [← zpow_natCast (2 : ℚ) 53, ← zpow_neg]
        norm_num
      rw [h53, show (1 : ℚ) / 2 = (2 : ℚ) ^ (-(1 : ℤ)) from by
        rw [zpow_neg, zpow_one]
        norm_num]
      rw [← zpow_add₀ (by norm_num : (2:ℚ) ≠ 0),
        ← zpow_add₀ (by norm_num : (2:ℚ) ≠ 0)]
      congr 1
      ring
    rw [hstep]
    exact mul_le_mul_of_nonneg_right hle (by positivity)
  · have h2 : (1 : ℚ) ≤ (rneInt A B : ℚ) := by
      have hbig : (1 : ℚ) + 1 / 2 ≤ (2 : ℚ) ^ (52 : ℤ) := by
        norm_num
      linarith
    exact_mod_cast h2

theorem flPair_err {a b : ℕ} (ha : 1 ≤ a) (hb : 1 ≤ b) :
    |((flPair a b).1 : ℚ) * 2 ^ ((flPair a b).2 - 52) - a / b| ≤
      ((a : ℚ) / b) * ((2 : ℚ) ^ (53 : ℕ))⁻¹ ∧ 1 ≤ (flPair a b).1 := by
  have hbq : (0 : ℚ) < b := by positivity
  have hle := qLog2_le ha hb
  unfold flPair
  dsimp only
  by_cases he : qLog2 a b ≤ 52
  · rw [if_pos he]
    refine rneInt_scaled_err hb ?_ hle
    have hk : (((52 - qLog2 a b).toNat : ℕ) : ℤ) = 52 - qLog2 a b :=
      Int.toNat_of_nonneg (by omega)
    push_cast
    rw [← zpow_natCast (2 : ℚ) (52 - qLog2 a b).toNat, hk]
    ring
  · rw [if_neg he]
    have hB : 1 ≤ b * 2 ^ (qLog2 a b - 52).toNat :=
      Nat.one_le_iff_ne_zero.mpr (by positivity)
    refine rneInt_scaled_err hB ?_ hle
    have hk : (((qLog2 a b - 52).toNat : ℕ) : ℤ) = qLog2 a b - 52 :=
      Int.toNat_of_nonneg (by omega)
    push_cast
    rw [← zpow_natCast (2 : ℚ) (qLog2 a b - 52).toNat, hk,
      show (52 - qLog2 a b : ℤ) = -(qLog2 a b - 52) from by ring, zpow_neg]
    rw [div_mul_eq_div_div, div_eq_mul_inv]

theorem jsRoundD_floor (m : ℕ) (e : ℤ) :
    (jsRoundD m e : ℤ) = ⌊(m : ℚ) * 2 ^ (e - 52) + 1 / 2⌋ := by
  unfold jsRoundD
  by_cases he : 52 ≤ e
  · rw [if_pos he]
    have hk : (((e - 52).toNat : ℕ) : ℤ) = e - 52 :=
      Int.toNat_of_nonneg (by omega)
    have hval : (m : ℚ) * 2 ^ (e - 52) =
        ((m * 2 ^ (e - 52).toNat : ℕ) : ℚ) := by
      push_cast
      rw [← zpow_natCast (2 : ℚ) (e - 52).toNat, hk]
    rw [hval]
    symm
    refine Int.floor_eq_iff.mpr ⟨?_, ?_⟩
    · push_cast
      linarith
    · push_cast
      linarith
  · rw [if_neg he]
    have hkpos : 1 ≤ (52 - e).toNat := by omega
    have hk : (((52 - e).toNat : ℕ) : ℤ) = 52 - e :=
      Int.toNat_of_nonneg (by omega)
    have hzp : ((2 : ℚ) ^ (52 - e).toNat)⁻¹ = (2 : ℚ) ^ (e - 52) := by
      rw [← zpow_natCast (2 : ℚ) (52 - e).toNat, ← zpow_neg, hk]
      congr 1
      ring
    have hval : (m : ℚ) * 2 ^ (e - 52) = (m : ℚ) / 2 ^ (52 - e).toNat := by
      rw [div_eq_mul_inv, hzp]
    rw [hval]
    have hsplit : ((2 : ℚ)) ^ (52 - e).toNat =
        2 * 2 ^ ((52 - e).toNat - 1) := by
      rcases Nat.exists_eq_add_of_le hkpos with ⟨u, hu⟩
      rw [show (52 - e).toNat = u + 1 from by omega]
      rw [Nat.add_sub_cancel, pow_succ]
      ring
    have hpk : (0 : ℚ) < 2 ^ (52 - e).toNat := by positivity
    have hhalf : (m : ℚ) / 2 ^ (52 - e).toNat + 1 / 2 =
        ((m + 2 ^ ((52 - e).toNat - 1) : ℕ) : ℚ) /
          ((2 ^ (52 - e).toNat : ℕ) : ℚ) := by
      have h12 : (1 : ℚ) / 2 =
          ((2 : ℚ) ^ ((52 - e).toNat - 1)) / 2 ^ (52 - e).toNat := by
        rw [hsplit, mul_comm, div_mul_eq_div_div,
          div_self (by positivity : ((2:ℚ) ^ ((52 - e).toNat - 1)) ≠ 0)]
      rw [h12, div_add_div_same]
      push_cast
      ring
    rw [hhalf]
    symm
    refine Int.floor_eq_iff.mpr ⟨?_, ?_⟩
    · rw [le_div_iff₀ (by exact_mod_cast hpk)]
      push_cast
      exact_mod_cast Nat.div_mul_le_self _ _
    · rw [div_lt_iff₀ (by exact_mod_cast hpk)]
      have hdm := Nat.div_add_mod (m + 2 ^ ((52 - e).toNat - 1))
        (2 ^ (52 - e).toNat)
      have hmod : (m + 2 ^ ((52 - e).toNat - 1)) % 2 ^ (52 - e).toNat <
          2 ^ (52 - e).toNat := Nat.mod_lt _ (by positivity)
      push_cast
      have hlt : (m + 2 ^ ((52 - e).toNat - 1) : ℕ) <
          ((m + 2 ^ ((52 - e).toNat - 1)) / 2 ^ (52 - e).toNat + 1) *
            2 ^ (52 - e).toNat := by
        nlinarith [hdm, hmod]
      exact_mod_cast hlt

theorem floor_half_stable {c t : ℕ} (hc : 1 ≤ c) (hct : c ≤ t)
    (ht32 : t ≤ 2 ^ 32) (hnd : ¬ ((2 * t : ℤ) ∣ (200 * c + t : ℤ)))
    {x2 : ℚ}
    (herr : |x2 - 100 * ((c : ℚ) / t)| ≤
      201 * ((c : ℚ) / t) * ((2 : ℚ) ^ (53 : ℕ))⁻¹) :
    ⌊x2 + 1 / 2⌋ = roundHalfUp ((100 * c : ℚ) / t) := by
  have ht : 1 ≤ t := le_trans hc hct
  have htq : (0 : ℚ) < t := by positivity
  have hqle : (c : ℚ) / t ≤ 1 := by
    rw [div_le_one htq]
    exact_mod_cast hct
  have hqpos : (0 : ℚ) < (c : ℚ) / t := by positivity
  -- the error is tiny
  have herr2 : |x2 - 100 * ((c : ℚ) / t)| ≤ 201 * ((2 : ℚ) ^ (53 : ℕ))⁻¹ := by
    refine le_trans herr ?_
    have : (201 : ℚ) * ((c : ℚ) / t) ≤ 201 := by linarith
    have hpos : (0 : ℚ) ≤ ((2 : ℚ) ^ (53 : ℕ))⁻¹ := by positivity
    nlinarith
  -- the halfway structure
  set N : ℕ := 200 * c + t with hN
  set D : ℕ := 2 * t with hD
  have hDpos : 0 < D := by omega
  have hDq : (0 : ℚ) < D := by positivity
  have hv : 100 * ((c : ℚ) / t) + 1 / 2 = (N : ℚ) / D := by
    rw [hN, hD]
    push_cast
    field_simp
    ring
  have hndN : ¬ (D ∣ N) := by
    intro hdvd
    exact hnd (by exact_mod_cast hdvd)
  have hrpos : 1 ≤ N % D := by
    rcases Nat.eq_zero_or_pos (N % D) with h0 | hpos
    · exact absurd (Nat.dvd_of_mod_eq_zero h0) hndN
    · exact hpos
  have hrlt : N % D < D := Nat.mod_lt _ hDpos
  have hdm : D * (N / D) + N % D = N := Nat.div_add_mod N D
  have hcast : (D : ℚ) * ((N / D : ℕ) : ℚ) + ((N % D : ℕ) : ℚ) = N := by
    exact_mod_cast congrArg (fun n : ℕ => (n : ℚ)) hdm
  have hr1 : (1 : ℚ) ≤ ((N % D : ℕ) : ℚ) := by exact_mod_cast hrpos
  have hr2 : ((N % D : ℕ) : ℚ) + 1 ≤ D := by exact_mod_cast hrlt
  have hgap1 : ((N / D : ℕ) : ℚ) + 1 / D ≤ (N : ℚ) / D := by
    rw [le_div_iff₀ hDq, add_mul, div_mul_cancel₀ _ (ne_of_gt hDq)]
    nlinarith
  have hgap2 : (N : ℚ) / D + 1 / D ≤ ((N / D : ℕ) : ℚ) + 1 := by
    rw [div_add_div_same, div_le_iff₀ hDq]
    nlinarith
  have hgap : (1 : ℚ) / D ≥ 1 / 2 ^ 33 := by
    rw [ge_iff_le, div_le_div_iff₀ (by norm_num) hDq]
    have hD33 : (D : ℚ) ≤ 2 ^ 33 := by
      have : D ≤ 2 ^ 33 := by omega
      exact_mod_cast this
    linarith
  have htiny : 201 * ((2 : ℚ) ^ (53 : ℕ))⁻¹ < 1 / 2 ^ 33 := by
    norm_num
  have habs := abs_le.mp herr2
  have hround : roundHalfUp ((100 * c : ℚ) / t) = ((N / D : ℕ) : ℤ) := by
    unfold roundHalfUp
    have hvv : (100 * c : ℚ) / t + 1 / 2 = (N : ℚ) / D := by
      rw [← hv]
      ring
    rw [hvv]
    refine Int.floor_eq_iff.mpr ⟨?_, ?_⟩
    · rw [Int.cast_natCast]
      linarith
    · rw [Int.cast_natCast]
      linarith
  rw [hround]
  refine Int.floor_eq_iff.mpr ⟨?_, ?_⟩
  · rw [Int.cast_natCast]
    linarith
  · rw [Int.cast_natCast]
    linarith

theorem rneInt_zero (B : ℕ) : rneInt 0 B = 0 := by
  unfold rneInt
  dsimp only
  rcases Nat.eq_zero_or_pos B with h | h <;> simp [h]

theorem flPair_zero_fst (b : ℕ) : (flPair 0 b).1 = 0 := by
  unfold flPair
  dsimp only
  split_ifs <;> simp [rneInt_zero]

theorem jsRoundD_zero (e : ℤ) : jsRoundD 0 e = 0 := by
  unfold jsRoundD
  split_ifs with h
  · simp
  · rw [Nat.zero_add]
    apply Nat.div_eq_of_lt
    exact Nat.pow_lt_pow_right (by norm_num) (by omega)

theorem completionRateAux_zero (t : ℕ) : completionRateAux 0 t = 0 := by
  unfold completionRateAux
  dsimp only
  split_ifs <;> simp [flPair_zero_fst, jsRoundD_zero]

theorem completionRateAux_eq {c t : ℕ} (hc : 1 ≤ c) (hct : c ≤ t)
    (ht32 : t ≤ 2 ^ 32) (hnd : ¬ ((2 * t : ℤ) ∣ (200 * c + t : ℤ))) :
    (completionRateAux c t : ℤ) = roundHalfUp ((100 * c : ℚ) / t) := by
  have ht : 1 ≤ t := le_trans hc hct
  have htq : (0 : ℚ) < t := by positivity
  obtain ⟨h1err, h1m⟩ := flPair_err (a := c) (b := t) hc ht
  have heps : (0 : ℚ) < ((2 : ℚ) ^ (53 : ℕ))⁻¹ := by positivity
  have heps1 : 100 * ((2 : ℚ) ^ (53 : ℕ))⁻¹ ≤ 1 := by norm_num
  have hqpos : (0 : ℚ) < (c : ℚ) / t := by positivity
  have hx1b : (((flPair c t).1 : ℚ) * 2 ^ ((flPair c t).2 - 52)) ≤
      ((c : ℚ) / t) * (1 + ((2 : ℚ) ^ (53 : ℕ))⁻¹) := by
    have h := (abs_le.mp h1err).2
    nlinarith
  unfold completionRateAux
  dsimp only
  by_cases he : (flPair c t).2 ≤ 52
  · rw [if_pos he]
    have hb2 : 1 ≤ 2 ^ (52 - (flPair c t).2).toNat := Nat.one_le_two_pow
    have ha2 : 1 ≤ 100 * (flPair c t).1 := by omega
    obtain ⟨h2err, _⟩ := flPair_err ha2 hb2
    have hk : (((52 - (flPair c t).2).toNat : ℕ) : ℤ) =
        52 - (flPair c t).2 := Int.toNat_of_nonneg (by omega)
    have hy : ((100 * (flPair c t).1 : ℕ) : ℚ) /
        ((2 ^ (52 - (flPair c t).2).toNat : ℕ) : ℚ) =
        100 * (((flPair c t).1 : ℚ) * 2 ^ ((flPair c t).2 - 52)) := by
      push_cast
      rw [← zpow_natCast (2 : ℚ) (52 - (flPair c t).2).toNat, hk,
        div_eq_mul_inv, ← zpow_neg,
        show (-(52 - (flPair c t).2) : ℤ) = (flPair c t).2 - 52 from by ring]
      ring
    rw [hy] at h2err
    rw [jsRoundD_floor]
    refine floor_half_stable hc hct ht32 hnd ?_
    have htri := abs_sub_le
      (((flPair (100 * (flPair c t).1)
          (2 ^ (52 - (flPair c t).2).toNat)).1 : ℚ) *
        2 ^ ((flPair (100 * (flPair c t).1)
          (2 ^ (52 - (flPair c t).2).toNat)).2 - 52))
      (100 * (((flPair c t).1 : ℚ) * 2 ^ ((flPair c t).2 - 52)))
      (100 * ((c : ℚ) / t))
    have habs1 : |100 * (((flPair c t).1 : ℚ) * 2 ^ ((flPair c t).2 - 52)) -
        100 * ((c : ℚ) / t)| =
        100 * |(((flPair c t).1 : ℚ) * 2 ^ ((flPair c t).2 - 52)) -
          (c : ℚ) / t| := by
      rw [show 100 * (((flPair c t).1 : ℚ) * 2 ^ ((flPair c t).2 - 52)) -
          100 * ((c : ℚ) / t) =
          100 * ((((flPair c t).1 : ℚ) * 2 ^ ((flPair c t).2 - 52)) -
            (c : ℚ) / t) from by ring,
        abs_mul, abs_of_nonneg (by norm_num : (0:ℚ) ≤ 100)]
    rw [habs1] at htri
    refine le_trans htri ?_
    nlinarith
  · rw [if_neg he]
    have hb2 : 1 ≤ (1 : ℕ) := le_rfl
    have ha2 : 1 ≤ 100 * (flPair c t).1 * 2 ^ ((flPair c t).2 - 52).toNat := by
      have := Nat.one_le_two_pow (n := ((flPair c t).2 - 52).toNat)
      nlinarith
    obtain ⟨h2err, _⟩ := flPair_err ha2 hb2
    have hk : ((((flPair c t).2 - 52).toNat : ℕ) : ℤ) =
        (flPair c t).2 - 52 := Int.toNat_of_nonneg (by omega)
    have hy : ((100 * (flPair c t).1 * 2 ^ ((flPair c t).2 - 52).toNat : ℕ) :
        ℚ) / ((1 : ℕ) : ℚ) =
        100 * (((flPair c t).1 : ℚ) * 2 ^ ((flPair c t).2 - 52)) := by
      push_cast
      rw [← zpow_natCast (2 : ℚ) ((flPair c t).2 - 52).toNat, hk]
      ring
    rw [hy] at h2err
    rw [jsRoundD_floor]
    refine floor_half_stable hc hct ht32 hnd ?_
    have htri := abs_sub_le
      (((flPair (100 * (flPair c t).1 * 2 ^ ((flPair c t).2 - 52).toNat)
          1).1 : ℚ) *
        2 ^ ((flPair (100 * (flPair c t).1 *
          2 ^ ((flPair c t).2 - 52).toNat) 1).2 - 52))
      (100 * (((flPair c t).1 : ℚ) * 2 ^ ((flPair c t).2 - 52)))
      (100 * ((c : ℚ) / t))
    have habs1 : |100 * (((flPair c t).1 : ℚ) * 2 ^ ((flPair c t).2 - 52)) -
        100 * ((c : ℚ) / t)| =
        100 * |(((flPair c t).1 : ℚ) * 2 ^ ((flPair c t).2 - 52)) -
          (c : ℚ) / t| := by
      rw [show 100 * (((flPair c t).1 : ℚ) * 2 ^ ((flPair c t).2 - 52)) -
          100 * ((c : ℚ) / t) =
          100 * ((((flPair c t).1 : ℚ) * 2 ^ ((flPair c t).2 - 52)) -
            (c : ℚ) / t) from by ring,
        abs_mul, abs_of_nonneg (by norm_num : (0:ℚ) ≤ 100)]
    rw [habs1] at htri
    refine le_trans htri ?_
    nlinarith

/-- C2: `calculateStats` returns `total` equal to the length of the input,
`completed` equal to the count of notes with `done = true`, `pending` equal
to `total - completed`, and `completionRate = 0` when `total = 0`.  The
claimed equation `completionRate = round-half-up of completed/total*100`
holds whenever the exact percentage is not exactly halfway between two
integers (`¬ 2*total ∣ 200*completed + total`, and `total ≤ 2^32`): the
binary64 evaluation of `completed / total * 100` then lands close enough to
the exact value that `Math.round` agrees with exact round-half-up.  (At
exactly-halfway percentages the two can differ; see the counterexample.) -/
theorem calculateStats_spec (ns : List Note) :
    (calculateStats ns).total = ns.length ∧
    (calculateStats ns).completed = (ns.filter fun n => n.done).length ∧
    (calculateStats ns).pending =
      ns.length - (ns.filter fun n => n.done).length ∧
    (ns.length = 0 → (calculateStats ns).completionRate = 0) ∧
    (0 < ns.length → ns.length ≤ 2 ^ 32 →
      ¬ ((2 * ns.length : ℤ) ∣
        (200 * (ns.filter fun n => n.done).length + ns.length : ℤ)) →
      ((calculateStats ns).completionRate : ℤ) =
        roundHalfUp ((100 * (ns.filter fun n => n.done).length : ℚ) /
          ns.length)) := by
  refine ⟨rfl, rfl, rfl, ?_, ?_⟩
  · intro h
    simp [calculateStats, h]
  · intro hpos h32 hnd
    have hrate : (calculateStats ns).completionRate =
        completionRateAux (ns.filter fun n => n.done).length ns.length := by
      simp [calculateStats, hpos]
    rw [hrate]
    rcases Nat.eq_zero_or_pos (ns.filter fun n => n.done).length with hc | hc
    · rw [hc, completionRateAux_zero]
      norm_num [roundHalfUp]
    · exact completionRateAux_eq hc (List.length_filter_le _ _) h32 hnd

/-- Witness for C2 at one completed note out of three: the hypotheses hold
(3 is not a halfway denominator for 1 completed) and the theorem yields the
round-half-up equation there. -/
theorem calculateStats_spec_witness :
    0 < (mixedNotes 1 2).length ∧
    ((calculateStats (mixedNotes 1 2)).completionRate : ℤ) =
      roundHalfUp ((100 * ((mixedNotes 1 2).filter fun n => n.done).length :
        ℚ) / (mixedNotes 1 2).length) :=
  ⟨by decide,
    (calculateStats_spec (mixedNotes 1 2)).2.2.2.2 (by decide) (by decide)
      (by decide)⟩

/-- Counterexample bounding C2's original wording: with 23 completed notes
out of 40 the exact percentage is 57.5, whose round-half-up value is 58, but
the code computes `Math.round(23/40*100)` on binary64 doubles, where
`23/40*100 = 57.49999999999999…`, and returns 57. -/
theorem calculateStats_halfway_counterexample :
    (mixedNotes 23 17).length = 40 ∧
    ((mixedNotes 23 17).filter fun n => n.done).length = 23 ∧
    (calculateStats (mixedNotes 23 17)).completionRate = 57 ∧
    roundHalfUp ((100 * 23 : ℚ) / 40) = 58 := by
  refine ⟨by decide, by decide, by decide, ?_⟩
  unfold roundHalfUp
  rw [show (100 * 23 : ℚ) / 40 + 1 / 2 = ((58 : ℤ) : ℚ) from by norm_num]
  exact Int.floor_intCast 58
